import Mathlib

/-!
Verification of the rfcbot core (command parser, proposal state machine,
comment renderer, reconciliation sweep) from `src/github/nag.rs`.

Rust `&str` values are embedded as `List Char` (`RStr`).  Rust's byte-index
slicing is modelled at the character level except where byte boundaries are
semantically relevant (`&user[1..]` in the `f?` parser arm, modelled by
`byteSlice1`, which panics exactly when byte index 1 is not a character
boundary, i.e. when the first character occupies more than one byte).

Database rows are embedded as structures mirroring the diesel models, the
store as lists of rows (`DbState`), and remote side effects (GitHub comment
posts/edits, label additions) as an explicit effect trace (`Fx`).
-/

/-- Embedding of Rust `&str` / `String` as a list of characters. -/
abbrev RStr := List Char

/-- Whitespace test used by the embedding; on the ASCII whitespace characters
that appear in this code base it agrees with Rust's `char::is_whitespace`. -/
def isWs (c : Char) : Bool := c.isWhitespace

/-- Rust `str::starts_with` with a string pattern. -/
def startsWith (p s : RStr) : Bool := decide (p <+: s)

/-- Fuel-indexed helper for `trimStartMatches`; each successful strip removes
at least one character, so `s.length` fuel always suffices. -/
def trimStartMatchesF : Nat → RStr → RStr → RStr
  | 0, _, s => s
  | fuel + 1, p, s => if p ≠ [] ∧ p <+: s then trimStartMatchesF fuel p (s.drop p.length) else s

/-- Rust `str::trim_left_matches` with a string pattern: repeatedly removes
the prefix while it matches. -/
def trimStartMatches (p : RStr) (s : RStr) : RStr := trimStartMatchesF s.length p s

/-- Rust `str::trim_left` (drop leading whitespace). -/
def ltrim (s : RStr) : RStr := s.dropWhile isWs

/-- Rust `str::trim_right` (drop trailing whitespace). -/
def rtrim (s : RStr) : RStr := (s.reverse.dropWhile isWs).reverse

/-- Rust `str::trim`. -/
def trim (s : RStr) : RStr := rtrim (ltrim s)

/-- Accumulator helper for `splitWs`: `acc` holds the reversed current token. -/
def splitWsAux : RStr → RStr → List RStr
  | [], acc => if acc = [] then [] else [acc.reverse]
  | c :: cs, acc =>
    if isWs c then
      if acc = [] then splitWsAux cs [] else acc.reverse :: splitWsAux cs []
    else splitWsAux cs (c :: acc)

/-- Rust `str::split_whitespace`: the maximal non-whitespace runs, in order. -/
def splitWs (s : RStr) : List RStr := splitWsAux s []

/-- Split a string at every occurrence of the character `c`; always returns a
non-empty list of pieces. -/
def splitOnChar (c : Char) : RStr → List RStr
  | [] => [[]]
  | d :: ds =>
    if d = c then [] :: splitOnChar c ds
    else
      match splitOnChar c ds with
      | [] => [[d]]
      | t :: ts => (d :: t) :: ts

/-- Remove one trailing carriage return, as Rust's `str::lines` does per line. -/
def stripCR (s : RStr) : RStr := if s.getLast? = some '\r' then s.dropLast else s

/-- Rust `str::lines`: split on newlines, no trailing empty line for a body
ending in a newline, one trailing carriage return removed per line. -/
def rustLines (s : RStr) : List RStr :=
  if s = [] then []
  else
    let ps := splitOnChar '\n' s
    (if ps.getLast? = some [] then ps.dropLast else ps).map stripCR

/-- Rust `str::find` with a string pattern, as an index into the character
list (the pattern occurrences relevant to the parser are pure ASCII, where
byte and character indices coincide). -/
def findSub (pat : RStr) : RStr → Option Nat
  | [] => if pat = [] then some 0 else none
  | c :: cs => if startsWith pat (c :: cs) then some 0 else (findSub pat cs).map (· + 1)

/-- Rust `&user[1..]`: drops the first byte.  This is the rest of the
character list when the first character is a single byte, and a panic (byte
index 1 is not a character boundary) when the first character is multi-byte;
on the empty string byte index 1 is out of bounds, also a panic. -/
def byteSlice1 (u : RStr) : Option RStr :=
  match u with
  | [] => none
  | c :: rest => if c.utf8Size = 1 then some rest else none

example : splitWs (("  fcp  merge x").data) = [("fcp").data, ("merge").data, ("x").data] := by decide

example : rustLines (("a\r\nb\n").data) = [("a").data, ("b").data] := by decide

example : trimStartMatches (("ab").data) (("ababcab").data) = ("cab").data := by decide

example : trim ((" x y ").data) = ("x y").data := by decide

/-! ## Command parser (`RfcBotCommand::from_str`, nag.rs lines 710-773) -/

/-- Embedding of `FcpDisposition`. -/
inductive FcpDisposition where
  | merge
  | close
  | postpone
deriving DecidableEq, Repr

/-- Source `FcpDisposition::repr`. -/
def FcpDisposition.repr : FcpDisposition → RStr
  | .merge => ("merge").data
  | .close => ("close").data
  | .postpone => ("postpone").data

/-- Source `FcpDisposition::from_str`. -/
def FcpDisposition.fromStr (s : RStr) : Except Unit FcpDisposition :=
  if s = ("merge").data then .ok .merge
  else if s = ("close").data then .ok .close
  else if s = ("postpone").data then .ok .postpone
  else .error ()

/-- Embedding of the `RfcBotCommand` sum type. -/
inductive RfcBotCommand where
  | fcpPropose (d : FcpDisposition)
  | fcpCancel
  | reviewed
  | newConcern (name : RStr)
  | resolveConcern (name : RStr)
  | feedbackRequest (user : RStr)
deriving DecidableEq, Repr

/-- Decidable equality for `Except`, used to evaluate model runs on concrete
inputs. -/
instance exceptDecidableEq {ε α : Type} [DecidableEq ε] [DecidableEq α] :
    DecidableEq (Except ε α) := fun a b =>
  match a, b with
  | .error e1, .error e2 =>
    if h : e1 = e2 then .isTrue (by rw [h])
    else .isFalse (by intro hh; injection hh; contradiction)
  | .error e1, .ok a2 => .isFalse (fun hh => Except.noConfusion hh)
  | .ok a1, .error e2 => .isFalse (fun hh => Except.noConfusion hh)
  | .ok a1, .ok a2 =>
    if h : a1 = a2 then .isTrue (by rw [h])
    else .isFalse (by intro hh; injection hh; contradiction)

/-- Outcome of running a Rust function that can return `Ok`, return `Err`, or
panic; `panicked` marks an actual runtime panic (out-of-bounds or
non-boundary byte slicing). -/
inductive RustRes (α : Type) where
  | ok (a : α)
  | err
  | panicked
deriving DecidableEq, Repr

/-- Embedding of the body of `RfcBotCommand::from_str` after the command line
has been located, the mention stripped, colons stripped and the result
trimmed (`command` in the source). -/
def parseCommandStr (command : RStr) : RustRes RfcBotCommand :=
  let toks := splitWs command
  match toks.head? with
  | none => .err
  | some invocation =>
    if invocation = ("fcp").data ∨ invocation = ("pr").data then
      match toks[1]? with
      | none => .err
      | some subcommand =>
        if subcommand = ("merge").data then .ok (.fcpPropose .merge)
        else if subcommand = ("close").data then .ok (.fcpPropose .close)
        else if subcommand = ("postpone").data then .ok (.fcpPropose .postpone)
        else if subcommand = ("cancel").data then .ok .fcpCancel
        else .err
    else if invocation = ("concern").data then
      match findSub (("concern").data) command with
      | some nameStart => .ok (.newConcern (trim (command.drop (nameStart + 7))))
      | none => .panicked
    else if invocation = ("resolved").data then
      match findSub (("resolved").data) command with
      | some nameStart => .ok (.resolveConcern (trim (command.drop (nameStart + 8))))
      | none => .panicked
    else if invocation = ("reviewed").data then .ok .reviewed
    else if invocation = ("f?").data then
      match toks[1]? with
      | none => .err
      | some user =>
        if user = [] then .err
        else
          match byteSlice1 user with
          | some u => .ok (.feedbackRequest u)
          | none => .panicked
    else .err

/-- Embedding of `RfcBotCommand::from_str`: find the first line starting with
the bot mention, strip the mention (repeatedly), strip leading colons, trim,
then parse the remaining command text. -/
def RfcBotCommand.fromStr (mention : RStr) (body : RStr) : RustRes RfcBotCommand :=
  match (rustLines body).find? (fun l => startsWith mention l) with
  | none => .err
  | some line =>
    parseCommandStr (trim ((trimStartMatches mention line).dropWhile (fun c => c = ':')))

example : RfcBotCommand.fromStr (("@rfcbot").data) (("@rfcbot: fcp merge\n\nSome justification here.").data) = .ok (.fcpPropose .merge) := by decide

example : RfcBotCommand.fromStr (("@rfcbot").data) (("@rfcbot fcp postpone").data) = .ok (.fcpPropose .postpone) := by decide

example : RfcBotCommand.fromStr (("@rfcbot").data) (("someothertext\n@rfcbot: resolved CONCERN_NAME\nsomemoretext").data) = .ok (.resolveConcern (("CONCERN_NAME").data)) := by decide

example : RfcBotCommand.fromStr (("@rfcbot").data) (("@rfcbot concern name with spaces").data) = .ok (.newConcern (("name with spaces").data)) := by decide

example : RfcBotCommand.fromStr (("@rfcbot").data) (("@rfcbot: f? @bob\nmore").data) = .ok (.feedbackRequest (("bob").data)) := by decide

example : RfcBotCommand.fromStr (("@rfcbot").data) (("@rfcbot reviewed").data) = .ok .reviewed := by decide

example : RfcBotCommand.fromStr (("@rfcbot").data) (("no command here").data) = .err := by decide

example : RfcBotCommand.fromStr (("@rfcbot").data) (("@rfcbot pr merge").data) = .ok (.fcpPropose .merge) := by decide

example : RfcBotCommand.fromStr (("@rfcbot").data) (("@rfcbot fcp cancel").data) = .ok .fcpCancel := by decide

example : RfcBotCommand.fromStr (("@rfcbot").data) ((("@rfcbot f? ").data) ++ [Char.ofNat 233]) = .panicked := by decide

/-! ## Data model (diesel row structures and the store) -/

/-- Embedding of `domain::github::GitHubUser`. -/
structure GitHubUser where
  id : Int
  login : RStr
deriving DecidableEq, Repr

/-- Embedding of `domain::github::Issue` (the fields read by the core). -/
structure Issue where
  id : Int
  number : Int
  repository : RStr
  open_ : Bool
  labels : List RStr
deriving DecidableEq, Repr

/-- Embedding of `domain::github::IssueComment` (the fields read by the core). -/
structure IssueComment where
  id : Int
  fk_issue : Int
  fk_user : Int
  body : RStr
deriving DecidableEq, Repr

/-- Embedding of `domain::github::Team` (the fields read by the core). -/
structure Team where
  id : Int
  label : RStr
deriving DecidableEq, Repr

/-- Embedding of `domain::github::Membership` (named `TeamMembership` here
because `Membership` is taken by the Lean library). -/
structure TeamMembership where
  fk_team : Int
  fk_member : Int
deriving DecidableEq, Repr

/-- Embedding of `domain::rfcbot::FcpProposal`. -/
structure FcpProposal where
  id : Int
  fk_issue : Int
  fk_initiator : Int
  fk_initiating_comment : Int
  disposition : RStr
  fk_bot_tracking_comment : Int
  fcp_start : Option Int
  fcp_closed : Bool
deriving DecidableEq, Repr

/-- Embedding of `domain::rfcbot::FcpReviewRequest`. -/
structure FcpReviewRequest where
  id : Int
  fk_proposal : Int
  fk_reviewer : Int
  reviewed : Bool
deriving DecidableEq, Repr

/-- Embedding of `domain::rfcbot::FcpConcern`. -/
structure FcpConcern where
  id : Int
  fk_proposal : Int
  fk_initiator : Int
  fk_resolved_comment : Option Int
  name : RStr
  fk_initiating_comment : Int
deriving DecidableEq, Repr

/-- Embedding of `domain::rfcbot::FeedbackRequest`. -/
structure FeedbackRequest where
  id : Int
  fk_initiator : Int
  fk_requested : Int
  fk_issue : Int
  fk_feedback_comment : Option Int
deriving DecidableEq, Repr

/-- Embedding of the relational store: one list of rows per table, plus the
next serial id handed out on insertion. -/
structure DbState where
  issues : List Issue
  users : List GitHubUser
  teams : List Team
  memberships : List TeamMembership
  comments : List IssueComment
  proposals : List FcpProposal
  reviewRequests : List FcpReviewRequest
  concerns : List FcpConcern
  feedbackRequests : List FeedbackRequest
  nextId : Int
deriving DecidableEq, Repr

/-! ## Remote side effects -/

/-- Remote calls the core performs against the collaboration platform. -/
inductive Effect where
  | newComment (repo : RStr) (number : Int) (body : RStr)
  | editComment (repo : RStr) (commentId : Int) (body : RStr)
  | addLabel (repo : RStr) (number : Int) (label : RStr)
deriving DecidableEq, Repr

/-- Trace items: `write` is a successful remote call, `attempt` records every
invocation of `RfcBotComment::post` with the body it tried to send (also the
refused and failed ones). -/
inductive FxItem where
  | write (e : Effect)
  | attempt (body : RStr)
deriving DecidableEq, Repr

/-- Effect trace of one model run. -/
abbrev Fx := List FxItem

/-- Static configuration and external-call oracle: the bot mention string,
the `CONFIG.post_comments` flag, whether `GH.add_label` succeeds, the
platform-assigned id for a newly posted comment, and the bot's own user id
(author of rows inserted for the bot's comments). -/
structure Config where
  mention : RStr
  postComments : Bool
  labelOk : Bool
  freshCommentId : Int
  botUserId : Int
deriving DecidableEq, Repr

/-- Embedding of `RfcBotComment::post` (nag.rs lines 898-924): posts or edits
only when comment posting is enabled and the issue is open, otherwise fails;
returns the id of the platform comment on success.  The attempt itself is
always recorded in the trace. -/
def postComment (cfg : Config) (issue : Issue) (body : RStr) (existing : Option Int) (freshId : Int) :
    Except Unit Int × Fx :=
  if cfg.postComments then
    if issue.open_ then
      match existing with
      | some commentId => (.ok commentId, [.attempt body, .write (.editComment issue.repository commentId body)])
      | none => (.ok freshId, [.attempt body, .write (.newComment issue.repository issue.number body)])
    else (.error (), [.attempt body])
  else (.error (), [.attempt body])

/-- Embedding of the `GH.add_label` call made during FCP start, with its
success decided by the oracle `cfg.labelOk`. -/
def addLabelCall (cfg : Config) (issue : Issue) (label : RStr) : Bool × Fx :=
  if cfg.labelOk then (true, [.write (.addLabel issue.repository issue.number label)])
  else (false, [])

/-! ## Comment renderer (`RfcBotComment::format`, nag.rs lines 806-896) -/

/-- Embedding of the `CommentType` sum over the four templates. -/
inductive CommentType where
  | fcpProposed (initiator : GitHubUser) (disposition : FcpDisposition)
      (reviewers : List (GitHubUser × FcpReviewRequest)) (concerns : List (GitHubUser × FcpConcern))
  | fcpProposalCancelled (initiator : GitHubUser)
  | fcpAllReviewedNoConcerns (author : GitHubUser) (statusCommentId : Int) (addedLabel : Bool)
  | fcpWeekPassed
deriving DecidableEq, Repr

/-- Apostrophe character, kept out of string literals. -/
def apos : Char := Char.ofNat 39

/-- Source `RfcBotComment::add_comment_url`. -/
def addCommentUrl (issue : Issue) (commentId : Int) : RStr :=
  ("https://github.com/").data ++ issue.repository ++ ("/issues/").data ++
    (toString issue.number).data ++ ("#issuecomment-").data ++ (toString commentId).data

/-- Checkbox line rendered for one reviewer. -/
def reviewerLine (x : GitHubUser × FcpReviewRequest) : RStr :=
  (if x.2.reviewed then ("* [x] @").data else ("* [ ] @").data) ++ x.1.login ++ ['\n']

/-- Line rendered for one concern: struck through with the resolving-comment
link when resolved, plain with the initiating-comment link otherwise. -/
def concernLine (issue : Issue) (x : GitHubUser × FcpConcern) : RStr :=
  match x.2.fk_resolved_comment with
  | some resolvedCommentId =>
    ("* ~~").data ++ x.2.name ++ ("~~ resolved by ").data ++ addCommentUrl issue resolvedCommentId ++ ['\n']
  | none =>
    ("* ").data ++ x.2.name ++ (" (").data ++ addCommentUrl issue x.2.fk_initiating_comment ++ (")").data ++ ['\n']

/-- Embedding of `RfcBotComment::format`: deterministic rendering of the four
comment templates. -/
def RfcBotComment.format (issue : Issue) (ct : CommentType) : RStr :=
  match ct with
  | .fcpProposed initiator disposition reviewers concerns =>
    ("Team member @").data ++ initiator.login ++ (" has proposed to ").data ++ disposition.repr ++
      (" this. The next step is review by the rest of the tagged ").data ++ ("teams:\n\n").data ++
      (reviewers.foldl (fun msg x => msg ++ reviewerLine x) []) ++
      (if concerns = [] then ("\nNo concerns currently listed.\n").data else ("\nConcerns:\n\n").data) ++
      (concerns.foldl (fun msg x => msg ++ concernLine issue x) []) ++
      ("\nOnce these reviewers reach consensus, this will enter its final ").data ++
      ("comment period. If you spot a major issue that hasn").data ++ [apos] ++
      ("t been raised at any point in this process, please speak up!\n").data ++
      ("\nSee [this document](").data ++
      ("https://github.com/dikaiosune/rust-dashboard/blob/master/RFCBOT.md").data ++
      (") for info about what commands tagged team members can give me.").data
  | .fcpProposalCancelled initiator =>
    ("@").data ++ initiator.login ++ (" proposal cancelled.").data
  | .fcpAllReviewedNoConcerns author statusCommentId addedLabel =>
    (":bell: **This is now entering its final comment period**, ").data ++
      ("as per the [review above](").data ++ addCommentUrl issue statusCommentId ++ (").").data ++ (" :bell:").data ++
      (if !addedLabel then
        ("\n\n*psst @").data ++ author.login ++ (", I wasn").data ++ [apos] ++
          ("t able to add the `final-comment-period` label, please do so.*").data
      else [])
  | .fcpWeekPassed => ("The final comment period is now complete.").data

/-! ## Store queries shared by the state machine and the sweep -/

/-- Lexicographic (code-point) order on strings, matching Rust's `str` `Ord`. -/
def rstrLe : RStr → RStr → Bool
  | [], _ => true
  | _ :: _, [] => false
  | a :: as, b :: bs =>
    if a.toNat < b.toNat then true
    else if b.toNat < a.toNat then false
    else rstrLe as bs

/-- Stable insertion into a list sorted by a boolean key order. -/
def insertSortedBy (le : α → α → Bool) (x : α) : List α → List α
  | [] => [x]
  | y :: ys => if le y x then y :: insertSortedBy le x ys else x :: y :: ys

/-- Stable sort by a boolean key order (same result as Rust's stable
`sort_by`). -/
def sortBy (le : α → α → Bool) (l : List α) : List α :=
  l.foldl (fun acc x => insertSortedBy le x acc) []

/-- Pair each review request with its reviewer row (`githubuser` lookup in
`list_review_requests`); a missing user is a store error. -/
def pairReviewers (db : DbState) : List FcpReviewRequest → Except Unit (List (GitHubUser × FcpReviewRequest))
  | [] => .ok []
  | r :: rs =>
    match db.users.find? (fun g => g.id == r.fk_reviewer) with
    | none => .error ()
    | some u =>
      match pairReviewers db rs with
      | .error e => .error e
      | .ok rest => .ok ((u, r) :: rest)

/-- Embedding of `list_review_requests` (nag.rs lines 351-371): the
proposal's review requests paired with their reviewers, sorted by login. -/
def listReviewRequests (db : DbState) (proposalId : Int) :
    Except Unit (List (GitHubUser × FcpReviewRequest)) :=
  match pairReviewers db (db.reviewRequests.filter (fun r => r.fk_proposal == proposalId)) with
  | .error e => .error e
  | .ok l => .ok (sortBy (fun a b => rstrLe a.1.login b.1.login) l)

/-- Pair each concern with its initiating author (`githubuser` lookup in
`list_concerns_with_authors`). -/
def pairConcernAuthors (db : DbState) : List FcpConcern → Except Unit (List (GitHubUser × FcpConcern))
  | [] => .ok []
  | c :: cs =>
    match db.users.find? (fun g => g.id == c.fk_initiator) with
    | none => .error ()
    | some u =>
      match pairConcernAuthors db cs with
      | .error e => .error e
      | .ok rest => .ok ((u, c) :: rest)

/-- Embedding of `list_concerns_with_authors` (nag.rs lines 373-392): the
proposal's concerns ordered by name (the SQL `ORDER BY name`), each paired
with its author. -/
def listConcernsWithAuthors (db : DbState) (proposalId : Int) :
    Except Unit (List (GitHubUser × FcpConcern)) :=
  pairConcernAuthors db
    (sortBy (fun a b => rstrLe a.name b.name) (db.concerns.filter (fun c => c.fk_proposal == proposalId)))

/-! ## Checkbox re-derivation (`update_proposal_review_status`, nag.rs 70-130) -/

/-- Per-line reviewer extraction from the bot's tracking comment: the
`filter_map` body in `update_proposal_review_status`.  Yields the username of
a checked `* [x] @user` line; unchecked and non-checkbox lines yield
nothing. -/
def parseReviewLine (line : RStr) : Option RStr :=
  if startsWith (("* [").data) line then
    let l := trimStartMatches (("* [").data) line
    let reviewed := startsWith (("x").data) l
    let remaining := trimStartMatches ((" ] @").data) (trimStartMatches (("x] @").data) l)
    match (splitWs remaining).head? with
    | some username => if reviewed then some username else none
    | none => none
  else none

/-- Usernames of all checked checkbox lines of a comment body. -/
def parseReviewedUsernames (body : RStr) : List RStr :=
  (rustLines body).filterMap parseReviewLine

/-- Sequentially mark the parsed usernames' review requests as reviewed; a
username without a user row or review-request row is a store error that
aborts the loop, with the updates already made kept (each row update is its
own transaction). -/
def applyReviewed (proposalId : Int) : List RStr → DbState → DbState × Bool
  | [], db => (db, true)
  | u :: us, db =>
    match db.users.find? (fun g => g.login == u) with
    | none => (db, false)
    | some user =>
      match db.reviewRequests.find? (fun r => r.fk_proposal == proposalId && r.fk_reviewer == user.id) with
      | none => (db, false)
      | some rr =>
        applyReviewed proposalId us
          {db with reviewRequests :=
            db.reviewRequests.map (fun r => if r.id == rr.id then {rr with reviewed := true} else r)}

/-- Embedding of `update_proposal_review_status`: re-derive reviewer state
from the bot's own tracking-comment text.  No-op once the FCP is running or
closed; store-lookup failures are errors (second component `false`). -/
def updateProposalReviewStatus (db : DbState) (proposalId : Int) : DbState × Bool :=
  match db.proposals.find? (fun p => p.id == proposalId) with
  | none => (db, false)
  | some proposal =>
    if proposal.fcp_start.isSome || proposal.fcp_closed then (db, true)
    else
      match db.comments.find? (fun c => c.id == proposal.fk_bot_tracking_comment) with
      | none => (db, false)
      | some comment => applyReviewed proposal.id (parseReviewedUsernames comment.body) db

/-! ## Cancellation (`cancel_fcp`, nag.rs 442-456) -/

/-- Embedding of `cancel_fcp`: delete the proposal with cascading deletion of
its review requests, its concerns, and the issue's feedback requests, then
attempt a cancellation comment whose outcome is ignored.

Modelled from the spec: the cascading behaviour itself lives in the database
schema (`ON DELETE CASCADE`), which is outside the sources; per the spec a
proposal deletion "cascades to its reviews, concerns, and feedback
requests". -/
def cancelFcp (cfg : Config) (author : GitHubUser) (issue : Issue) (existing : FcpProposal) (db : DbState) :
    DbState × Fx :=
  let db :=
    {db with
      proposals := db.proposals.filter (fun p => !(p.id == existing.id)),
      reviewRequests := db.reviewRequests.filter (fun r => !(r.fk_proposal == existing.id)),
      concerns := db.concerns.filter (fun c => !(c.fk_proposal == existing.id)),
      feedbackRequests := db.feedbackRequests.filter (fun f => !(f.fk_issue == existing.fk_issue))}
  let body := RfcBotComment.format issue (.fcpProposalCancelled author)
  let (_, fx) := postComment cfg issue body none 0
  (db, fx)

/-! ## Reconciliation sweep (`evaluate_nags`, nag.rs 132-349) -/

/-- One pending proposal's processing inside the sweep (the body of the first
loop of `evaluate_nags`).  The returned flag is `false` only for the two
`?`-propagated errors (unparsable stored disposition, missing tracking
comment row), which abort the whole sweep; every other failure skips just
this proposal. -/
def pendingStep (cfg : Config) (now : Int) (p : FcpProposal) (db : DbState) : DbState × Fx × Bool :=
  match db.users.find? (fun u => u.id == p.fk_initiator) with
  | none => (db, [], true)
  | some initiator =>
  match db.issues.find? (fun i => i.id == p.fk_issue) with
  | none => (db, [], true)
  | some issue =>
  let cancelled := if issue.open_ then (db, ([] : Fx)) else cancelFcp cfg initiator issue p db
  let db := cancelled.1
  let fxCancel := cancelled.2
  match updateProposalReviewStatus db p.id with
  | (db1, false) => (db1, fxCancel, true)
  | (db1, true) =>
  match listReviewRequests db1 p.id with
  | .error _ => (db1, fxCancel, true)
  | .ok reviews =>
  match listConcernsWithAuthors db1 p.id with
  | .error _ => (db1, fxCancel, true)
  | .ok concerns =>
  let numActiveReviews := (reviews.filter (fun x => !x.2.reviewed)).length
  let numActiveConcerns := (concerns.filter (fun x => x.2.fk_resolved_comment.isNone)).length
  match FcpDisposition.fromStr p.disposition with
  | .error _ => (db1, fxCancel, false)
  | .ok disposition =>
  let statusBody := RfcBotComment.format issue (.fcpProposed initiator disposition reviews concerns)
  match db1.comments.find? (fun c => c.id == p.fk_bot_tracking_comment) with
  | none => (db1, fxCancel, false)
  | some previousComment =>
  let edited :=
    if previousComment.body ≠ statusBody then
      let posted := postComment cfg issue statusBody (some p.fk_bot_tracking_comment) 0
      (posted.1.isOk, posted.2)
    else (true, ([] : Fx))
  if !edited.1 then (db1, fxCancel ++ edited.2, true)
  else if numActiveReviews == 0 && numActiveConcerns == 0 then
    let p1 := {p with fcp_start := some now}
    let db2 := {db1 with proposals := db1.proposals.map (fun q => if q.id == p.id then p1 else q)}
    if cfg.postComments then
      let label := addLabelCall cfg issue (("final-comment-period").data)
      let startBody :=
        RfcBotComment.format issue (.fcpAllReviewedNoConcerns initiator p.fk_bot_tracking_comment label.1)
      let posted := postComment cfg issue startBody none cfg.freshCommentId
      (db2, fxCancel ++ edited.2 ++ label.2 ++ posted.2, true)
    else (db2, fxCancel ++ edited.2, true)
  else (db1, fxCancel ++ edited.2, true)

/-- First loop of `evaluate_nags` over the pending (no `fcp_start`)
proposals. -/
def pendingLoop (cfg : Config) (now : Int) : List FcpProposal → DbState → DbState × Fx × Bool
  | [], db => (db, [], true)
  | p :: ps, db =>
    match pendingStep cfg now p db with
    | (db1, fx1, true) =>
      match pendingLoop cfg now ps db1 with
      | (db2, fx2, ok) => (db2, fx1 ++ fx2, ok)
    | (db1, fx1, false) => (db1, fx1, false)

/-- One finished proposal's processing (body of the second loop of
`evaluate_nags`): mark the FCP closed, then post the completion comment. -/
def finishedStep (cfg : Config) (p : FcpProposal) (db : DbState) : DbState × Fx :=
  match db.issues.find? (fun i => i.id == p.fk_issue) with
  | none => (db, [])
  | some issue =>
    let p1 := {p with fcp_closed := true}
    let db1 := {db with proposals := db.proposals.map (fun q => if q.id == p.id then p1 else q)}
    let posted := postComment cfg issue (RfcBotComment.format issue .fcpWeekPassed) none cfg.freshCommentId
    (db1, posted.2)

/-- Second loop of `evaluate_nags` over the finished FCPs. -/
def finishedLoop (cfg : Config) : List FcpProposal → DbState → DbState × Fx
  | [], db => (db, [])
  | p :: ps, db =>
    match finishedStep cfg p db with
    | (db1, fx1) =>
      match finishedLoop cfg ps db1 with
      | (db2, fx2) => (db2, fx1 ++ fx2)

/-- Filter of the finished-FCP query: `fcp_start <= now - 10 days` (a NULL
`fcp_start` never satisfies the SQL comparison) and `fcp_closed = false`.
Time is measured in days. -/
def finishedFilter (now : Int) (p : FcpProposal) : Bool :=
  (match p.fcp_start with
   | some t => decide (t ≤ now - 10)
   | none => false) && !p.fcp_closed

/-- Embedding of `evaluate_nags`: process pending proposals, then close the
FCPs whose final comment period has passed.  The returned flag is the
`DashResult` success of the whole sweep. -/
def evaluateNags (cfg : Config) (now : Int) (db : DbState) : DbState × Fx × Bool :=
  let pending := db.proposals.filter (fun p => p.fcp_start.isNone)
  match pendingLoop cfg now pending db with
  | (db1, fx1, false) => (db1, fx1, false)
  | (db1, fx1, true) =>
    let finished := db1.proposals.filter (finishedFilter now)
    match finishedLoop cfg finished db1 with
    | (db2, fx2) => (db2, fx1 ++ fx2, true)

/-! ## Command processing (`RfcBotCommand::process`, nag.rs 494-708) -/

/-- Insert one review request per subteam member for a freshly created
proposal; the initiator's row starts pre-reviewed. -/
def insertReviewRequests (proposalId : Int) (author : GitHubUser) : List GitHubUser → DbState → DbState
  | [], db => db
  | member :: rest, db =>
    insertReviewRequests proposalId author rest
      {db with
        reviewRequests := db.reviewRequests ++
          [({id := db.nextId, fk_proposal := proposalId, fk_reviewer := member.id,
              reviewed := member.id == author.id} : FcpReviewRequest)],
        nextId := db.nextId + 1}

/-- Embedding of `RfcBotCommand::process`.  The boolean is the `DashResult`
success; partial state changes before a failure are kept (each row write is
its own transaction). -/
def processCommand (cfg : Config) (author : GitHubUser) (issue : Issue) (comment : IssueComment)
    (issueSubteamMembers : List GitHubUser) (cmd : RfcBotCommand) (db : DbState) :
    DbState × Fx × Bool :=
  let existingProposal := db.proposals.find? (fun p => p.fk_issue == issue.id)
  match cmd with
  | .fcpPropose disposition =>
    match existingProposal with
    | some _ => (db, [], true)
    | none =>
      let body0 := RfcBotComment.format issue (.fcpProposed author disposition [] [])
      match postComment cfg issue body0 none cfg.freshCommentId with
      | (.error _, fx0) => (db, fx0, false)
      | (.ok ghCommentId, fx0) =>
        let db :=
          {db with comments := db.comments ++
            [({id := ghCommentId, fk_issue := issue.id, fk_user := cfg.botUserId, body := body0} : IssueComment)]}
        let proposalId := db.nextId
        let db :=
          {db with
            proposals := db.proposals ++
              [({id := proposalId, fk_issue := issue.id, fk_initiator := author.id,
                  fk_initiating_comment := comment.id, disposition := disposition.repr,
                  fk_bot_tracking_comment := ghCommentId, fcp_start := none, fcp_closed := false} : FcpProposal)],
            nextId := db.nextId + 1}
        let db := insertReviewRequests proposalId author issueSubteamMembers db
        match listReviewRequests db proposalId with
        | .error _ => (db, fx0, false)
        | .ok reviews =>
          let body1 := RfcBotComment.format issue (.fcpProposed author disposition reviews [])
          match postComment cfg issue body1 (some ghCommentId) 0 with
          | (.error _, fx1) => (db, fx0 ++ fx1, false)
          | (.ok _, fx1) => (db, fx0 ++ fx1, true)
  | .fcpCancel =>
    match existingProposal with
    | some existing =>
      match cancelFcp cfg author issue existing db with
      | (db1, fx1) => (db1, fx1, true)
    | none => (db, [], true)
  | .reviewed =>
    match existingProposal with
    | some proposal =>
      match db.reviewRequests.find? (fun r => r.fk_proposal == proposal.id && r.fk_reviewer == author.id) with
      | some rr =>
        ({db with reviewRequests :=
            db.reviewRequests.map (fun r => if r.id == rr.id then {rr with reviewed := true} else r)},
          [], true)
      | none => (db, [], true)
    | none => (db, [], true)
  | .newConcern concernName =>
    match existingProposal with
    | some proposal =>
      match db.concerns.find? (fun c => c.fk_proposal == proposal.id && c.name == concernName) with
      | some _ => (db, [], true)
      | none =>
        ({db with
            concerns := db.concerns ++
              [({id := db.nextId, fk_proposal := proposal.id, fk_initiator := author.id,
                  fk_resolved_comment := none, name := concernName, fk_initiating_comment := comment.id} : FcpConcern)],
            nextId := db.nextId + 1},
          [], true)
    | none => (db, [], true)
  | .resolveConcern concernName =>
    match existingProposal with
    | some proposal =>
      match db.concerns.find?
          (fun c => c.fk_proposal == proposal.id && c.fk_initiator == author.id && c.name == concernName) with
      | some c0 =>
        ({db with concerns :=
            db.concerns.map (fun c =>
              if c.id == c0.id then {c0 with fk_resolved_comment := some comment.id} else c)},
          [], true)
      | none => (db, [], true)
    | none => (db, [], true)
  | .feedbackRequest username =>
    match db.users.find? (fun g => g.login == username) with
    | none => (db, [], false)
    | some requestedUser =>
      match db.feedbackRequests.find?
          (fun f => f.fk_requested == requestedUser.id && f.fk_issue == issue.id) with
      | some _ => (db, [], true)
      | none =>
        ({db with
            feedbackRequests := db.feedbackRequests ++
              [({id := db.nextId, fk_initiator := author.id, fk_requested := requestedUser.id,
                  fk_issue := issue.id, fk_feedback_comment := none} : FeedbackRequest)],
            nextId := db.nextId + 1},
          [], true)

/-! ## Inbound comment handling (`update_nags`, nag.rs 17-68) -/

/-- Embedding of `subteam_members` (nag.rs 417-440): teams whose label is on
the issue, their member ids, the corresponding users ordered by login. -/
def subteamMembers (db : DbState) (issue : Issue) : List GitHubUser :=
  let teamIds := (db.teams.filter (fun t => issue.labels.contains t.label)).map (fun t => t.id)
  let memberIds := (db.memberships.filter (fun m => teamIds.contains m.fk_team)).map (fun m => m.fk_member)
  sortBy (fun a b => rstrLe a.login b.login) (db.users.filter (fun u => memberIds.contains u.id))

/-- Embedding of `resolve_applicable_feedback_requests` (nag.rs 394-414):
mark the author's open feedback request on this issue (if any) as answered by
this comment. -/
def resolveApplicableFeedbackRequests (author : GitHubUser) (issue : Issue) (comment : IssueComment)
    (db : DbState) : DbState :=
  match db.feedbackRequests.find? (fun f => f.fk_requested == author.id && f.fk_issue == issue.id) with
  | none => db
  | some request =>
    {db with feedbackRequests :=
      db.feedbackRequests.map (fun f =>
        if f.id == request.id then {request with fk_feedback_comment := some comment.id} else f)}

/-- Result of `update_nags`, with a ghost field recording whether command
processing (`RfcBotCommand::process`) was invoked and on which command; the
field is written nowhere else and exists only to state the silent-ignore
property. -/
structure UpdateResult where
  db : DbState
  fx : Fx
  ok : Bool
  processed : Option RfcBotCommand
deriving DecidableEq, Repr

/-- Embedding of `update_nags`, the inbound-comment entry point: parse a
command out of the comment; drop commands from non-subteam members; process
accepted commands (failures logged, swallowed); for non-commands resolve
applicable feedback requests; then run the sweep (not reached when a command
was dropped or its processing failed).  Returns `none` when the parser
panics. -/
def updateNags (cfg : Config) (now : Int) (comment : IssueComment) (db : DbState) :
    Option UpdateResult :=
  match db.issues.find? (fun i => i.id == comment.fk_issue) with
  | none => some {db := db, fx := [], ok := false, processed := none}
  | some issue =>
  match db.users.find? (fun u => u.id == comment.fk_user) with
  | none => some {db := db, fx := [], ok := false, processed := none}
  | some author =>
  let subteam := subteamMembers db issue
  match RfcBotCommand.fromStr cfg.mention comment.body with
  | .panicked => none
  | .ok command =>
    if (subteam.find? (fun u => u == author)).isNone then
      some {db := db, fx := [], ok := true, processed := none}
    else
      match processCommand cfg author issue comment subteam command db with
      | (db1, fx1, false) => some {db := db1, fx := fx1, ok := true, processed := some command}
      | (db1, fx1, true) =>
        match evaluateNags cfg now db1 with
        | (db2, fx2, _) => some {db := db2, fx := fx1 ++ fx2, ok := true, processed := some command}
  | .err =>
    let db1 := resolveApplicableFeedbackRequests author issue comment db
    match evaluateNags cfg now db1 with
    | (db2, fx2, _) => some {db := db2, fx := fx2, ok := true, processed := none}

/-! ## Concrete fixtures used by witnesses and counterexamples -/

/-- Configuration fixture: posting enabled, label attach succeeds. -/
def cfgW : Config :=
  {mention := ("@rfcbot").data, postComments := true, labelOk := true, freshCommentId := 900, botUserId := 7}

/-- User fixture: the proposal initiator. -/
def alice : GitHubUser := {id := 1, login := ("alice").data}

/-- User fixture: a second reviewer. -/
def bob : GitHubUser := {id := 2, login := ("bob").data}

/-- Issue fixture. -/
def issueW : Issue :=
  {id := 10, number := 42, repository := ("rust-lang/rfcs").data, open_ := true, labels := [("T-lang").data]}

/-- Proposal fixture: merge disposition, not started, not closed. -/
def propW : FcpProposal :=
  {id := 5, fk_issue := 10, fk_initiator := 1, fk_initiating_comment := 100, disposition := ("merge").data,
    fk_bot_tracking_comment := 200, fcp_start := none, fcp_closed := false}

/-- Review-request fixtures: alice reviewed, bob not. -/
def rrAlice : FcpReviewRequest := {id := 21, fk_proposal := 5, fk_reviewer := 1, reviewed := true}

/-- Review-request fixture for bob. -/
def rrBob : FcpReviewRequest := {id := 22, fk_proposal := 5, fk_reviewer := 2, reviewed := false}

/-- Tracking-comment fixture: its body is exactly the current rendering of
the proposal state. -/
def cmtW : IssueComment :=
  {id := 200, fk_issue := 10, fk_user := 7,
    body := RfcBotComment.format issueW (.fcpProposed alice .merge [(alice, rrAlice), (bob, rrBob)] [])}

/-- Database fixture: one pending proposal with its tracking comment whose
body is exactly the current rendering. -/
def dbW : DbState :=
  {issues := [issueW], users := [alice, bob], teams := [{id := 3, label := ("T-lang").data}],
    memberships := [{fk_team := 3, fk_member := 1}, {fk_team := 3, fk_member := 2}],
    comments := [cmtW],
    proposals := [propW], reviewRequests := [rrAlice, rrBob], concerns := [], feedbackRequests := [],
    nextId := 50}

set_option maxRecDepth 10000 in
example : (updateProposalReviewStatus dbW 5).2 = true := by decide

set_option maxRecDepth 10000 in
example : (updateProposalReviewStatus dbW 5).1 = dbW := by decide

set_option maxRecDepth 10000 in
example : (evaluateNags cfgW 0 dbW).1.proposals = [propW] := by decide

set_option maxRecDepth 10000 in
example : (evaluateNags cfgW 0 dbW).2.2 = true := by decide

/-! ## String lemmas -/

theorem startsWith_iff (p s : RStr) : startsWith p s = true ↔ p <+: s := by
  simp [startsWith]

theorem trimStartMatchesF_of_not (p r : RStr) (fuel : Nat) (h : ¬ p <+: r) :
    trimStartMatchesF fuel p r = r := by
  cases fuel with
  | zero => rfl
  | succ f => simp [trimStartMatchesF, h]

theorem trimStartMatches_of_not (p s : RStr) (h : ¬ p <+: s) : trimStartMatches p s = s :=
  trimStartMatchesF_of_not p s s.length h

theorem trimStartMatches_append_of_not (p r : RStr) (h : ¬ p <+: r) :
    trimStartMatches p (p ++ r) = r := by
  have hp : p ≠ [] := by
    rintro rfl
    exact h List.nil_prefix
  have hlen : (p ++ r).length = p.length + r.length := List.length_append p r
  have hpos : 0 < p.length := List.length_pos.mpr hp
  unfold trimStartMatches
  rw [hlen]
  obtain ⟨f, hf⟩ : ∃ f, p.length + r.length = f + 1 := ⟨p.length + r.length - 1, by omega⟩
  rw [hf]
  simp only [trimStartMatchesF, hp, ne_eq, not_false_iff, true_and, List.prefix_append, if_pos,
    List.drop_left]
  exact trimStartMatchesF_of_not p r f h

theorem find?_append_cons {α : Type} (p : α → Bool) (pre : List α) (x : α) (post : List α)
    (hpre : ∀ l ∈ pre, p l = false) (hx : p x = true) :
    (pre ++ x :: post).find? p = some x := by
  induction pre with
  | nil => rw [List.nil_append, List.find?_cons_of_pos _ hx]
  | cons a as ih =>
    rw [List.cons_append, List.find?_cons_of_neg _ (by simp [hpre a (by simp)])]
    exact ih (fun l hl => hpre l (by simp [hl]))

theorem splitWs_ws_cons (c : Char) (cs : RStr) (h : isWs c = true) : splitWs (c :: cs) = splitWs cs := by
  simp [splitWs, splitWsAux, h]

theorem splitWsAux_append_nonws (w : RStr) (hw : ∀ c ∈ w, isWs c = false) :
    ∀ s acc, splitWsAux (w ++ s) acc = splitWsAux s (w.reverse ++ acc) := by
  induction w with
  | nil => intro s acc; simp
  | cons c cs ih =>
    intro s acc
    rw [List.cons_append]
    show splitWsAux (c :: (cs ++ s)) acc = _
    simp only [splitWsAux, hw c (by simp), Bool.false_eq_true, if_false]
    rw [ih (fun d hd => hw d (by simp [hd])) s (c :: acc)]
    simp

theorem splitWs_token_ws (w : RStr) (hw : ∀ c ∈ w, isWs c = false) (hne : w ≠ [])
    (d : Char) (hd : isWs d = true) (rest : RStr) :
    splitWs (w ++ d :: rest) = w :: splitWs rest := by
  show splitWsAux (w ++ d :: rest) [] = _
  rw [splitWsAux_append_nonws w hw (d :: rest) []]
  have hrev : w.reverse ++ [] = w.reverse := List.append_nil _
  rw [hrev]
  have hrne : w.reverse ≠ [] := by simpa using hne
  simp [splitWsAux, hd, hrne, splitWs]

theorem splitWs_all_nonws (w : RStr) (hw : ∀ c ∈ w, isWs c = false) (hne : w ≠ []) :
    splitWs w = [w] := by
  show splitWsAux w [] = _
  have := splitWsAux_append_nonws w hw [] []
  rw [List.append_nil] at this
  rw [this]
  have hrne : w.reverse ≠ [] := by simpa using hne
  simp [splitWsAux, hrne]

theorem trim_ws_cons (c : Char) (s : RStr) (h : isWs c = true) : trim (c :: s) = trim s := by
  simp [trim, ltrim, h]

theorem findSub_of_prefix (pat s : RStr) (h : pat <+: s) : findSub pat s = some 0 := by
  cases s with
  | nil =>
    have : pat = [] := List.prefix_nil.mp h
    simp [findSub, this]
  | cons c cs => simp [findSub, startsWith, h]

/-! ## Parser lemmas for the grammar rows with free payloads -/

theorem parseCommandStr_concern (name : RStr) :
    parseCommandStr ((("concern ").data) ++ name) = .ok (.newConcern (trim name)) := by
  have h1 : (("concern ").data) ++ name = (("concern").data) ++ (' ' :: name) := rfl
  have htoks : splitWs ((("concern ").data) ++ name) = (("concern").data) :: splitWs name := by
    rw [h1]
    exact splitWs_token_ws _ (by decide) (by decide) ' ' (by decide) name
  have hfind : findSub (("concern").data) ((("concern ").data) ++ name) = some 0 := by
    apply findSub_of_prefix
    rw [h1]
    exact List.prefix_append _ _
  have hdrop : List.drop (0 + 7) (['c', 'o', 'n', 'c', 'e', 'r', 'n', ' '] ++ name) = ' ' :: name := rfl
  simp only [parseCommandStr, htoks, List.head?, hfind]
  rw [if_pos trivial, hdrop, trim_ws_cons ' ' name (by decide), if_neg (by decide)]

theorem parseCommandStr_resolved (name : RStr) :
    parseCommandStr ((("resolved ").data) ++ name) = .ok (.resolveConcern (trim name)) := by
  have h1 : (("resolved ").data) ++ name = (("resolved").data) ++ (' ' :: name) := rfl
  have htoks : splitWs ((("resolved ").data) ++ name) = (("resolved").data) :: splitWs name := by
    rw [h1]
    exact splitWs_token_ws _ (by decide) (by decide) ' ' (by decide) name
  have hfind : findSub (("resolved").data) ((("resolved ").data) ++ name) = some 0 := by
    apply findSub_of_prefix
    rw [h1]
    exact List.prefix_append _ _
  have hdrop : List.drop (0 + 8) (['r', 'e', 's', 'o', 'l', 'v', 'e', 'd', ' '] ++ name) = ' ' :: name := rfl
  simp only [parseCommandStr, htoks, List.head?, hfind]
  rw [if_pos trivial, hdrop, trim_ws_cons ' ' name (by decide), if_neg (by decide), if_neg (by decide)]

theorem parseCommandStr_fq (u : RStr) (hu : ∀ c ∈ u, isWs c = false) :
    parseCommandStr ((("f? @").data) ++ u) = .ok (.feedbackRequest u) := by
  have h1 : (("f? @").data) ++ u = (("f?").data) ++ (' ' :: ('@' :: u)) := rfl
  have htoks : splitWs ((("f? @").data) ++ u) = [("f?").data, '@' :: u] := by
    rw [h1, splitWs_token_ws _ (by decide) (by decide) ' ' (by decide) ('@' :: u)]
    rw [splitWs_all_nonws ('@' :: u) (by
      intro c hc
      rcases List.mem_cons.mp hc with h | h
      · rw [h]; decide
      · exact hu c h) (by simp)]
  have hq : ('@').utf8Size = 1 := by decide
  simp only [parseCommandStr, htoks, List.head?]
  rw [if_pos trivial]
  simp [byteSlice1, hq]

/-- C7: for every comment body whose first line starting with the bot mention
consists of the mention followed by `rest`, with `rest` stripping (colons,
whitespace) to the grammar row, the parser yields the command of that row;
concern/resolved names capture the whole trimmed remainder of the line, and
`f? @user` strips the leading `@` from the user token. -/
theorem claim_C7 (mention body r cmd : RStr) (pre post : List RStr)
    (hlines : rustLines body = pre ++ (mention ++ r) :: post)
    (hpre : ∀ l ∈ pre, startsWith mention l = false)
    (hr : ¬ mention <+: r)
    (hcmd : trim (r.dropWhile (fun c => c = ':')) = cmd) :
    (cmd = ("fcp merge").data ∨ cmd = ("pr merge").data →
      RfcBotCommand.fromStr mention body = .ok (.fcpPropose .merge)) ∧
    (cmd = ("fcp close").data → RfcBotCommand.fromStr mention body = .ok (.fcpPropose .close)) ∧
    (cmd = ("fcp postpone").data → RfcBotCommand.fromStr mention body = .ok (.fcpPropose .postpone)) ∧
    (cmd = ("fcp cancel").data → RfcBotCommand.fromStr mention body = .ok .fcpCancel) ∧
    (cmd = ("reviewed").data → RfcBotCommand.fromStr mention body = .ok .reviewed) ∧
    (∀ name, cmd = (("concern ").data) ++ name →
      RfcBotCommand.fromStr mention body = .ok (.newConcern (trim name))) ∧
    (∀ name, cmd = (("resolved ").data) ++ name →
      RfcBotCommand.fromStr mention body = .ok (.resolveConcern (trim name))) ∧
    (∀ user, (∀ c ∈ user, isWs c = false) → cmd = (("f? @").data) ++ user →
      RfcBotCommand.fromStr mention body = .ok (.feedbackRequest user)) := by
  have hstart : startsWith mention (mention ++ r) = true :=
    (startsWith_iff _ _).mpr (List.prefix_append _ _)
  have hfind : (rustLines body).find? (fun l => startsWith mention l) = some (mention ++ r) := by
    rw [hlines]
    exact find?_append_cons _ pre _ post hpre hstart
  have hfrom : RfcBotCommand.fromStr mention body = parseCommandStr cmd := by
    unfold RfcBotCommand.fromStr
    rw [hfind]
    simp only [trimStartMatches_append_of_not mention r hr, hcmd]
  refine ⟨?_, ?_, ?_, ?_, ?_, ?_, ?_, ?_⟩
  · rintro (h | h) <;> rw [hfrom, h] <;> decide
  · intro h
    rw [hfrom, h]
    decide
  · intro h
    rw [hfrom, h]
    decide
  · intro h
    rw [hfrom, h]
    decide
  · intro h
    rw [hfrom, h]
    decide
  · intro name h
    rw [hfrom, h]
    exact parseCommandStr_concern name
  · intro name h
    rw [hfrom, h]
    exact parseCommandStr_resolved name
  · intro user hu h
    rw [hfrom, h]
    exact parseCommandStr_fq user hu

/-- Witness for C7 at a concrete multi-line body. -/
theorem claim_C7_witness :
    RfcBotCommand.fromStr (("@rfcbot").data) (("intro\n@rfcbot: fcp merge\ntrailing").data) =
      .ok (.fcpPropose .merge) := by
  have h := claim_C7 (("@rfcbot").data) (("intro\n@rfcbot: fcp merge\ntrailing").data)
    ((": fcp merge").data) (("fcp merge").data) [("intro").data] [("trailing").data]
    (by decide) (by decide) (by decide) (by decide)
  exact h.1 (Or.inl rfl)

/-! ## Character-provenance lemmas for the parser safety claim -/

theorem splitOnChar_subset (ch : Char) (s t : RStr) (ht : t ∈ splitOnChar ch s) :
    ∀ c ∈ t, c ∈ s := by
  induction s generalizing t with
  | nil =>
    simp only [splitOnChar, List.mem_singleton] at ht
    subst ht
    simp
  | cons d ds ih =>
    simp only [splitOnChar] at ht
    by_cases hd : d = ch
    · rw [if_pos hd] at ht
      rcases List.mem_cons.mp ht with h | h
      · subst h
        simp
      · intro c hc
        exact List.mem_cons_of_mem d (ih t h c hc)
    · rw [if_neg hd] at ht
      rcases hsp : splitOnChar ch ds with _ | ⟨t0, ts⟩
      · rw [hsp] at ht
        simp only [List.mem_singleton] at ht
        subst ht
        intro c hc
        simp only [List.mem_singleton] at hc
        subst hc
        simp
      · rw [hsp] at ht
        rcases List.mem_cons.mp ht with h | h
        · subst h
          intro c hc
          rcases List.mem_cons.mp hc with h | h
          · subst h
            simp
          · exact List.mem_cons_of_mem d (ih t0 (by rw [hsp]; simp) c h)
        · intro c hc
          exact List.mem_cons_of_mem d (ih t (by rw [hsp]; exact List.mem_cons_of_mem t0 h) c hc)

theorem stripCR_subset (t : RStr) (c : Char) (hc : c ∈ stripCR t) : c ∈ t := by
  unfold stripCR at hc
  split at hc
  · exact (List.dropLast_sublist t).subset hc
  · exact hc

theorem rustLines_subset (s l : RStr) (hl : l ∈ rustLines s) : ∀ c ∈ l, c ∈ s := by
  unfold rustLines at hl
  split at hl
  · simp at hl
  · simp only [List.mem_map] at hl
    obtain ⟨t, ht, rfl⟩ := hl
    intro c hc
    have hts : t ∈ splitOnChar '\n' s := by
      revert ht
      split
      · intro ht
        exact (List.dropLast_sublist _).subset ht
      · exact fun ht => ht
    exact splitOnChar_subset '\n' s t hts c (stripCR_subset t c hc)

theorem trimStartMatchesF_subset (fuel : Nat) (p s : RStr) (c : Char)
    (hc : c ∈ trimStartMatchesF fuel p s) : c ∈ s := by
  induction fuel generalizing s with
  | zero => exact hc
  | succ f ih =>
    unfold trimStartMatchesF at hc
    split at hc
    · exact (List.drop_subset _ s) (ih _ hc)
    · exact hc

theorem trim_subset (s : RStr) (c : Char) (hc : c ∈ trim s) : c ∈ s := by
  unfold trim rtrim ltrim at hc
  have h1 := (List.dropWhile_sublist (l := (s.dropWhile isWs).reverse) isWs).subset
  have h2 := (List.dropWhile_sublist (l := s) isWs).subset
  rw [List.mem_reverse] at hc
  have := h1 hc
  rw [List.mem_reverse] at this
  exact h2 this

theorem splitWsAux_part (s : RStr) : ∀ acc t, t ∈ splitWsAux s acc → t <:+: (acc.reverse ++ s) := by
  induction s with
  | nil =>
    intro acc t ht
    simp only [splitWsAux] at ht
    split at ht
    · simp at ht
    · simp only [List.mem_singleton] at ht
      subst ht
      simp
  | cons c cs ih =>
    intro acc t ht
    simp only [splitWsAux] at ht
    by_cases hws : isWs c = true
    · rw [if_pos hws] at ht
      split at ht
      · have := ih [] t ht
        simp only [List.reverse_nil, List.nil_append] at this
        exact this.trans ((List.suffix_cons c cs).isInfix.trans
          ((List.suffix_append acc.reverse (c :: cs)).isInfix))
      · rcases List.mem_cons.mp ht with h | h
        · subst h
          exact ((List.prefix_append acc.reverse (c :: cs)).isInfix)
        · have := ih [] t h
          simp only [List.reverse_nil, List.nil_append] at this
          exact this.trans ((List.suffix_cons c cs).isInfix.trans
            ((List.suffix_append acc.reverse (c :: cs)).isInfix))
    · rw [if_neg (by simpa using hws)] at ht
      have := ih (c :: acc) t ht
      simpa [List.append_assoc] using this

theorem splitWs_part (s t : RStr) (ht : t ∈ splitWs s) : t <:+: s := by
  have := splitWsAux_part s [] t ht
  simpa using this

theorem splitWsAux_mem_ne_nil (s : RStr) : ∀ acc t, t ∈ splitWsAux s acc → t ≠ [] := by
  induction s with
  | nil =>
    intro acc t ht
    simp only [splitWsAux] at ht
    split at ht
    · simp at ht
    · next h =>
      simp only [List.mem_singleton] at ht
      subst ht
      simpa using h
  | cons c cs ih =>
    intro acc t ht
    simp only [splitWsAux] at ht
    by_cases hws : isWs c = true
    · rw [if_pos hws] at ht
      split at ht
      · exact ih [] t ht
      · next h =>
        rcases List.mem_cons.mp ht with hh | hh
        · subst hh
          simpa using h
        · exact ih [] t hh
    · rw [if_neg (by simpa using hws)] at ht
      exact ih (c :: acc) t ht

theorem splitWs_mem_ne_nil (s t : RStr) (ht : t ∈ splitWs s) : t ≠ [] :=
  splitWsAux_mem_ne_nil s [] t ht

theorem findSub_isSome_of_infix (p s : RStr) (h : p <:+: s) : (findSub p s).isSome = true := by
  induction s with
  | nil =>
    have hp : p = [] := by simpa using h.length_le
    simp [findSub, hp]
  | cons c cs ih =>
    by_cases hp : p <+: (c :: cs)
    · simp [findSub, startsWith, hp]
    · have hcs : p <:+: cs := by
        rcases List.infix_cons_iff.mp h with h1 | h1
        · exact absurd h1 hp
        · exact h1
      have := ih hcs
      simp only [findSub, startsWith]
      rw [if_neg (by simpa using hp)]
      simpa using this

theorem mem_of_getElem1 {α : Type} (a : α) (l : List α) (x : α) (h : (a :: l)[1]? = some x) :
    x ∈ a :: l := by
  cases l with
  | nil => simp at h
  | cons b bs =>
    simp only [List.getElem?_cons_succ, List.getElem?_cons_zero, Option.some.injEq] at h
    subst h
    simp

theorem parseCommandStr_not_panicked (command : RStr) (h : ∀ c ∈ command, c.utf8Size = 1) :
    parseCommandStr command ≠ .panicked := by
  unfold parseCommandStr
  cases hsw : splitWs command with
  | nil => simp
  | cons invocation toksRest =>
  have hinv : invocation ∈ splitWs command := by
    rw [hsw]
    simp
  simp only [List.head?]
  split_ifs with h1 h2 h3 h4 h5
  · cases (invocation :: toksRest)[1]? with
    | none => simp
    | some subcommand =>
      dsimp only
      split_ifs <;> simp
  · have hfs := findSub_isSome_of_infix (("concern").data) command (by
      have hi := splitWs_part command invocation hinv
      rw [h2] at hi
      exact hi)
    cases hfind : findSub (("concern").data) command with
    | none => rw [hfind] at hfs; simp at hfs
    | some i => simp
  · have hfs := findSub_isSome_of_infix (("resolved").data) command (by
      have hi := splitWs_part command invocation hinv
      rw [h3] at hi
      exact hi)
    cases hfind : findSub (("resolved").data) command with
    | none => rw [hfind] at hfs; simp at hfs
    | some i => simp
  · simp
  · cases hget : (invocation :: toksRest)[1]? with
    | none => simp
    | some user =>
      have huser : user ∈ splitWs command := by
        rw [hsw]
        exact mem_of_getElem1 invocation toksRest user hget
      have hne := splitWs_mem_ne_nil command user huser
      cases user with
      | nil => simp
      | cons c0 rest =>
        have hc0 : c0 ∈ command := ((splitWs_part command _ huser).sublist).subset (by simp)
        have := h c0 hc0
        simp [byteSlice1, this]
  · simp

/-- C10 (amended): the parser is total and panic-free on every body whose
characters are all single-byte; in particular the concern/resolved slicing
never panics there, and neither does `&user[1..]`. -/
theorem claim_C10 (mention body : RStr) (hbody : ∀ c ∈ body, c.utf8Size = 1) :
    RfcBotCommand.fromStr mention body ≠ .panicked := by
  unfold RfcBotCommand.fromStr
  cases hf : (rustLines body).find? (fun l => startsWith mention l) with
  | none => simp
  | some line =>
    have hline : line ∈ rustLines body := List.mem_of_find?_eq_some hf
    have hlsub : ∀ c ∈ line, c.utf8Size = 1 := fun c hc =>
      hbody c (rustLines_subset body line hline c hc)
    apply parseCommandStr_not_panicked
    intro c hc
    apply hlsub
    have h1 := trim_subset _ c hc
    have h2 := (List.dropWhile_sublist (l := trimStartMatches mention line)
      (fun c => c = ':')).subset h1
    exact trimStartMatchesF_subset _ _ _ c h2

/-- C10 counterexample: on a body whose `f?` user token starts with a
multi-byte character (here U+00E9), `from_str` panics — `&user[1..]` slices
at byte index 1 inside a two-byte character. -/
theorem claim_C10_counterexample :
    RfcBotCommand.fromStr (("@rfcbot").data) ((("@rfcbot f? ").data) ++ [Char.ofNat 233]) =
      .panicked := by decide

/-- Witness for C10 at a concrete all-ASCII body. -/
theorem claim_C10_witness :
    (∀ c ∈ (("@rfcbot f? @bob").data), c.utf8Size = 1) ∧
      RfcBotCommand.fromStr (("@rfcbot").data) (("@rfcbot f? @bob").data) ≠ .panicked :=
  ⟨by decide, claim_C10 _ _ (by decide)⟩

/-! ## C1: NewConcern uniqueness check -/

/-- Comment fixture: the comment carrying the inbound command. -/
def cmtC1 : IssueComment := {id := 300, fk_issue := 10, fk_user := 2, body := ("@rfcbot concern perf").data}

/-- Concern fixture: an already *resolved* concern named `perf` on the
proposal. -/
def resolvedConcern : FcpConcern :=
  {id := 30, fk_proposal := 5, fk_initiator := 1, fk_resolved_comment := some 120,
    name := ("perf").data, fk_initiating_comment := 110}

/-- Database fixture for the C1 counterexample: the live proposal of `dbW`
plus a resolved concern named `perf` and no unresolved concern of that
name. -/
def dbC1 : DbState := {dbW with concerns := [resolvedConcern]}

/-- C1 counterexample: a live proposal whose only concern named `perf` is
resolved; processing `NewConcern(perf)` inserts nothing, because the
duplicate check of the source filters only on proposal and name, not on
resolution state — so the claim "a previously resolved concern named n does
not prevent the insertion" fails here. -/
theorem claim_C1_counterexample :
    (dbC1.proposals.find? (fun p => p.fk_issue == issueW.id) = some propW) ∧
    (∀ c ∈ dbC1.concerns,
      ¬(c.fk_proposal = propW.id ∧ c.fk_resolved_comment = none ∧ c.name = ("perf").data)) ∧
    (processCommand cfgW bob issueW cmtC1 [alice, bob] (.newConcern (("perf").data)) dbC1).1.concerns =
      dbC1.concerns := by decide

/-- C1 (amended): processing `NewConcern(n)` for a live proposal inserts a
new unresolved concern exactly when no existing concern of that proposal —
resolved or unresolved — is named `n`; a previously resolved concern named
`n` blocks the insertion (re-raising a resolved name is a no-op). -/
theorem claim_C1 (cfg : Config) (author : GitHubUser) (issue : Issue) (comment : IssueComment)
    (subteam : List GitHubUser) (n : RStr) (db : DbState) (P : FcpProposal)
    (hP : db.proposals.find? (fun p => p.fk_issue == issue.id) = some P) :
    (db.concerns.find? (fun c => c.fk_proposal == P.id && c.name == n) = none →
      (processCommand cfg author issue comment subteam (.newConcern n) db).1.concerns =
        db.concerns ++
          [{id := db.nextId, fk_proposal := P.id, fk_initiator := author.id,
            fk_resolved_comment := none, name := n, fk_initiating_comment := comment.id}]) ∧
    (∀ c0, db.concerns.find? (fun c => c.fk_proposal == P.id && c.name == n) = some c0 →
      (processCommand cfg author issue comment subteam (.newConcern n) db).1.concerns =
        db.concerns) := by
  constructor
  · intro hnone
    simp only [processCommand, hP, hnone]
  · intro c0 hsome
    simp only [processCommand, hP, hsome]

/-- Witness for C1 at a concrete database without a concern named `perf`. -/
theorem claim_C1_witness :
    (processCommand cfgW bob issueW cmtC1 [alice, bob] (.newConcern (("perf").data)) dbW).1.concerns =
      dbW.concerns ++
        [{id := dbW.nextId, fk_proposal := propW.id, fk_initiator := bob.id,
          fk_resolved_comment := none, name := ("perf").data, fk_initiating_comment := cmtC1.id}] :=
  (claim_C1 cfgW bob issueW cmtC1 [alice, bob] (("perf").data) dbW propW (by decide)).1 (by decide)

/-! ## C2: monotone re-derivation of reviewer state -/

/-- Pointwise relation between review-request tables: every row is unchanged
or has only had its `reviewed` flag turned on (all other fields equal). -/
def ReviewMono (old new : List FcpReviewRequest) : Prop :=
  List.Forall₂ (fun r r' => r' = r ∨ r' = {r with reviewed := true}) old new

theorem ReviewMono.refl (l : List FcpReviewRequest) : ReviewMono l l := by
  induction l with
  | nil => exact List.Forall₂.nil
  | cons a l ih => exact List.Forall₂.cons (Or.inl rfl) ih

theorem ReviewMono.comp {a b c : List FcpReviewRequest} (h1 : ReviewMono a b) (h2 : ReviewMono b c) :
    ReviewMono a c := by
  induction h1 generalizing c with
  | nil => cases h2; exact List.Forall₂.nil
  | cons hr h1 ih =>
    cases h2 with
    | cons hr2 h2 =>
      refine List.Forall₂.cons ?_ (ih h2)
      rcases hr with rfl | rfl <;> rcases hr2 with rfl | rfl <;> simp

theorem ReviewMono.ids_eq {a b : List FcpReviewRequest} (h : ReviewMono a b) :
    a.map (fun r => r.id) = b.map (fun r => r.id) := by
  induction h with
  | nil => rfl
  | cons hr h ih =>
    simp only [List.map_cons, ih, List.cons.injEq, and_true]
    rcases hr with rfl | rfl <;> simp

theorem ReviewMono.find?_transport {q : FcpReviewRequest → Bool}
    (hq : ∀ r, q {r with reviewed := true} = q r) {old new : List FcpReviewRequest}
    (h : ReviewMono old new) (r : FcpReviewRequest)
    (hf : old.find? q = some r) :
    ∃ r', new.find? q = some r' ∧ (r.reviewed = true → r'.reviewed = true) := by
  induction h with
  | nil => simp at hf
  | cons hr h ih =>
    next a b l1 l2 =>
    have hqb : q b = q a := by
      rcases hr with rfl | rfl
      · rfl
      · exact hq a
    by_cases hqa : q a = true
    · rw [List.find?_cons_of_pos _ hqa] at hf
      obtain rfl : a = r := by injection hf
      refine ⟨b, ?_, ?_⟩
      · rw [List.find?_cons_of_pos _ (by rw [hqb]; exact hqa)]
      · intro hrev
        rcases hr with rfl | rfl
        · exact hrev
        · rfl
    · rw [List.find?_cons_of_neg _ hqa] at hf
      obtain ⟨r', hfind, himp⟩ := ih hf
      refine ⟨r', ?_, himp⟩
      rw [List.find?_cons_of_neg _ (by rw [hqb]; exact hqa)]
      exact hfind

theorem reviewMono_map_set (l : List FcpReviewRequest) (rr : FcpReviewRequest)
    (hnd : (l.map (fun r => r.id)).Nodup) (hmem : rr ∈ l) :
    ReviewMono l (l.map (fun r => if r.id == rr.id then {rr with reviewed := true} else r)) := by
  induction l with
  | nil => exact List.Forall₂.nil
  | cons a l ih =>
    simp only [List.map_cons, List.nodup_cons] at hnd
    refine List.Forall₂.cons ?_ ?_
    · dsimp only
      by_cases heq : (a.id == rr.id) = true
      · have : rr = a := by
          rcases List.mem_cons.mp hmem with h | h
          · exact h
          · exact absurd (by rw [beq_iff_eq] at heq; rw [heq]; exact List.mem_map_of_mem _ h) hnd.1
        subst this
        rw [if_pos heq]
        exact Or.inr rfl
      · rw [if_neg heq]
        exact Or.inl rfl
    · rcases List.mem_cons.mp hmem with h | h
      · subst h
        have : ∀ r ∈ l, ¬(r.id == rr.id) = true := by
          intro r hr hid
          rw [beq_iff_eq] at hid
          exact hnd.1 (hid ▸ List.mem_map_of_mem _ hr)
        have hmap : l.map (fun r => if r.id == rr.id then {rr with reviewed := true} else r) = l := by
          apply List.map_congr_left ?_ |>.trans l.map_id
          intro r hr
          rw [if_neg (this r hr)]
          rfl
        rw [hmap]
        exact ReviewMono.refl l
      · exact ih hnd.2 h

theorem find?_map_set (l : List FcpReviewRequest) (rr : FcpReviewRequest)
    {q : FcpReviewRequest → Bool} (hq : ∀ r, q {r with reviewed := true} = q r)
    (hnd : (l.map (fun r => r.id)).Nodup)
    (hf : l.find? q = some rr) :
    (l.map (fun r => if r.id == rr.id then {rr with reviewed := true} else r)).find? q =
      some {rr with reviewed := true} := by
  induction l with
  | nil => simp at hf
  | cons a l ih =>
    simp only [List.map_cons, List.nodup_cons] at hnd
    by_cases hqa : q a = true
    · rw [List.find?_cons_of_pos _ hqa] at hf
      obtain rfl : a = rr := by injection hf
      simp only [List.map_cons, beq_self_eq_true, if_pos]
      rw [List.find?_cons_of_pos _ (by rw [hq]; exact hqa)]
    · rw [List.find?_cons_of_neg _ hqa] at hf
      have hrrmem : rr ∈ l := List.mem_of_find?_eq_some hf
      have hane : ¬(a.id == rr.id) = true := by
        intro hid
        rw [beq_iff_eq] at hid
        exact hnd.1 (hid ▸ List.mem_map_of_mem _ hrrmem)
      simp only [List.map_cons, if_neg hane]
      rw [List.find?_cons_of_neg _ hqa]
      exact ih hnd.2 hf

theorem applyReviewed_users_const (pid : Int) (us : List RStr) (db : DbState) :
    (applyReviewed pid us db).1.users = db.users := by
  induction us generalizing db with
  | nil => rfl
  | cons u rest ih =>
    unfold applyReviewed
    cases h1 : db.users.find? (fun g => g.login == u) with
    | none => rfl
    | some user =>
      dsimp only
      cases h2 : db.reviewRequests.find? (fun r => r.fk_proposal == pid && r.fk_reviewer == user.id) with
      | none => rfl
      | some rr => exact ih _

theorem applyReviewed_mono (pid : Int) (us : List RStr) (db : DbState)
    (hnd : (db.reviewRequests.map (fun r => r.id)).Nodup) :
    ReviewMono db.reviewRequests (applyReviewed pid us db).1.reviewRequests := by
  induction us generalizing db with
  | nil => exact ReviewMono.refl _
  | cons u rest ih =>
    unfold applyReviewed
    cases h1 : db.users.find? (fun g => g.login == u) with
    | none => exact ReviewMono.refl _
    | some user =>
      dsimp only
      cases h2 : db.reviewRequests.find? (fun r => r.fk_proposal == pid && r.fk_reviewer == user.id) with
      | none => exact ReviewMono.refl _
      | some rr =>
        dsimp only
        have hmem : rr ∈ db.reviewRequests := List.mem_of_find?_eq_some h2
        have hstep := reviewMono_map_set db.reviewRequests rr hnd hmem
        have hnd2 : ((db.reviewRequests.map
            (fun r => if r.id == rr.id then {rr with reviewed := true} else r)).map
              (fun r => r.id)).Nodup := by
          rw [← hstep.ids_eq]
          exact hnd
        exact hstep.comp (ih {db with reviewRequests := db.reviewRequests.map (fun r => if r.id == rr.id then {rr with reviewed := true} else r)} hnd2)

theorem reviewQ_ignores_reviewed (pid uid : Int) :
    ∀ r : FcpReviewRequest,
      ((fun x => x.fk_proposal == pid && x.fk_reviewer == uid) {r with reviewed := true}) =
        ((fun x => x.fk_proposal == pid && x.fk_reviewer == uid) r) := fun _ => rfl

theorem applyReviewed_sets (pid : Int) (us : List RStr) (db : DbState)
    (hnd : (db.reviewRequests.map (fun r => r.id)).Nodup)
    (hok : (applyReviewed pid us db).2 = true)
    (u : RStr) (hu : u ∈ us) (user : GitHubUser)
    (huser : db.users.find? (fun g => g.login == u) = some user) :
    ∃ r', (applyReviewed pid us db).1.reviewRequests.find?
        (fun r => r.fk_proposal == pid && r.fk_reviewer == user.id) = some r' ∧
      r'.reviewed = true := by
  induction us generalizing db with
  | nil => cases hu
  | cons u0 rest ih =>
    unfold applyReviewed at hok ⊢
    cases h1 : db.users.find? (fun g => g.login == u0) with
    | none =>
      rw [h1] at hok
      simp at hok
    | some user0 =>
      rw [h1] at hok
      dsimp only at hok ⊢
      cases h2 : db.reviewRequests.find?
          (fun r => r.fk_proposal == pid && r.fk_reviewer == user0.id) with
      | none =>
        rw [h2] at hok
        simp at hok
      | some rr =>
        rw [h2] at hok
        dsimp only at hok ⊢
        have hmem : rr ∈ db.reviewRequests := List.mem_of_find?_eq_some h2
        have hids := (reviewMono_map_set db.reviewRequests rr hnd hmem).ids_eq
        have hnd2 : ((db.reviewRequests.map
            (fun r => if r.id == rr.id then {rr with reviewed := true} else r)).map
              (fun r => r.id)).Nodup := by
          rw [← hids]
          exact hnd
        rcases List.mem_cons.mp hu with rfl | hurest
        · obtain rfl : user0 = user := by
            rw [h1] at huser
            injection huser
          have hset := find?_map_set db.reviewRequests rr
            (reviewQ_ignores_reviewed pid user0.id) hnd h2
          have hmono := applyReviewed_mono pid rest {db with reviewRequests := db.reviewRequests.map (fun r => if r.id == rr.id then {rr with reviewed := true} else r)} hnd2
          obtain ⟨r', hr', himp⟩ := ReviewMono.find?_transport
            (reviewQ_ignores_reviewed pid user0.id) hmono {rr with reviewed := true} hset
          exact ⟨r', hr', himp rfl⟩
        · exact ih _ hnd2 hok hurest huser


theorem updateProposalReviewStatus_mono (db : DbState) (pid : Int)
    (hnd : (db.reviewRequests.map (fun r => r.id)).Nodup) :
    ReviewMono db.reviewRequests (updateProposalReviewStatus db pid).1.reviewRequests := by
  unfold updateProposalReviewStatus
  cases h1 : db.proposals.find? (fun p => p.id == pid) with
  | none => exact ReviewMono.refl _
  | some proposal =>
    dsimp only
    split
    · exact ReviewMono.refl _
    · cases h2 : db.comments.find? (fun c => c.id == proposal.fk_bot_tracking_comment) with
      | none => exact ReviewMono.refl _
      | some comment => exact applyReviewed_mono _ _ db hnd

theorem parseReviewLine_checked (login : RStr) (hne : login ≠ [])
    (hnws : ∀ c ∈ login, isWs c = false)
    (h1 : ¬ (("x] @").data <+: login)) (h2 : ¬ ((" ] @").data <+: login)) :
    parseReviewLine ((("* [x] @").data) ++ login) = some login := by
  have hline : (("* [x] @").data) ++ login = (("* [").data) ++ ((("x] @").data) ++ login) := rfl
  have hsw : startsWith (("* [").data) ((("* [x] @").data) ++ login) = true := by
    rw [startsWith_iff, hline]
    exact List.prefix_append _ _
  have hnotpre : ¬ (("* [").data <+: (("x] @").data) ++ login) := by
    intro hp
    have hp' : '*' :: ((" [").data) <+: 'x' :: ((("] @").data) ++ login) := hp
    rw [List.cons_prefix_cons] at hp'
    exact absurd hp'.1 (by decide)
  have htrim1 : trimStartMatches (("* [").data) ((("* [x] @").data) ++ login) =
      (("x] @").data) ++ login := by
    rw [hline]
    exact trimStartMatches_append_of_not _ _ hnotpre
  have hx : startsWith (("x").data) ((("x] @").data) ++ login) = true := by
    rw [startsWith_iff]
    show ('x' :: []) <+: 'x' :: ((("] @").data) ++ login)
    exact List.cons_prefix_cons.mpr ⟨rfl, List.nil_prefix⟩
  unfold parseReviewLine
  rw [if_pos hsw, htrim1]
  dsimp only
  rw [trimStartMatches_append_of_not (("x] @").data) login h1,
    trimStartMatches_of_not ((" ] @").data) login h2,
    splitWs_all_nonws login hnws hne, hx]
  rfl

theorem parseReviewLine_unchecked (login : RStr) :
    parseReviewLine ((("* [ ] @").data) ++ login) = none := by
  have hline : (("* [ ] @").data) ++ login = (("* [").data) ++ (((" ] @").data) ++ login) := rfl
  have hsw : startsWith (("* [").data) ((("* [ ] @").data) ++ login) = true := by
    rw [startsWith_iff, hline]
    exact List.prefix_append _ _
  have hnotpre : ¬ (("* [").data <+: ((" ] @").data) ++ login) := by
    intro hp
    have hp' : '*' :: ((" [").data) <+: ' ' :: ((("] @").data) ++ login) := hp
    rw [List.cons_prefix_cons] at hp'
    exact absurd hp'.1 (by decide)
  have htrim1 : trimStartMatches (("* [").data) ((("* [ ] @").data) ++ login) =
      ((" ] @").data) ++ login := by
    rw [hline]
    exact trimStartMatches_append_of_not _ _ hnotpre
  have hx : startsWith (("x").data) (((" ] @").data) ++ login) = false := by
    rw [show (((" ] @").data) ++ login) = ' ' :: ((("] @").data) ++ login) from rfl]
    rw [Bool.eq_false_iff]
    intro hc
    rw [startsWith_iff] at hc
    have hc' : 'x' :: ([] : RStr) <+: ' ' :: ((("] @").data) ++ login) := hc
    rw [List.cons_prefix_cons] at hc'
    exact absurd hc'.1 (by decide)
  unfold parseReviewLine
  rw [if_pos hsw, htrim1]
  dsimp only
  rw [hx]
  cases (splitWs (trimStartMatches ((" ] @").data)
      (trimStartMatches (("x] @").data) (((" ] @").data) ++ login)))).head? <;> simp

/-- C2: the sweep's re-derivation of reviewer state from the tracking-comment
text is monotone — it can only turn `reviewed` flags on, never off
(`ReviewMono`) — a checked `* [x] @user` line parses to that user and, on a
successful pass over a pending proposal, sets that user's review request to
reviewed; an unchecked `* [ ] @user` line parses to nothing, so it never
clears an already-true flag. -/
theorem claim_C2 (db : DbState) (pid : Int)
    (hnd : (db.reviewRequests.map (fun r => r.id)).Nodup) :
    ReviewMono db.reviewRequests (updateProposalReviewStatus db pid).1.reviewRequests ∧
    (∀ login, login ≠ [] → (∀ c ∈ login, isWs c = false) →
      ¬ (("x] @").data <+: login) → ¬ ((" ] @").data <+: login) →
      parseReviewLine ((("* [x] @").data) ++ login) = some login) ∧
    (∀ login, parseReviewLine ((("* [ ] @").data) ++ login) = none) ∧
    (∀ P comment login user,
      db.proposals.find? (fun p => p.id == pid) = some P →
      P.fcp_start = none → P.fcp_closed = false →
      db.comments.find? (fun c => c.id == P.fk_bot_tracking_comment) = some comment →
      (updateProposalReviewStatus db pid).2 = true →
      login ∈ parseReviewedUsernames comment.body →
      db.users.find? (fun g => g.login == login) = some user →
      ∃ r', (updateProposalReviewStatus db pid).1.reviewRequests.find?
          (fun r => r.fk_proposal == P.id && r.fk_reviewer == user.id) = some r' ∧
        r'.reviewed = true) := by
  refine ⟨updateProposalReviewStatus_mono db pid hnd, parseReviewLine_checked,
    parseReviewLine_unchecked, ?_⟩
  intro P comment login user hP hstart hclosed hcomment hok hlogin huser
  have hred : updateProposalReviewStatus db pid =
      applyReviewed P.id (parseReviewedUsernames comment.body) db := by
    unfold updateProposalReviewStatus
    rw [hP]
    dsimp only
    rw [if_neg (by simp [hstart, hclosed]), hcomment]
  rw [hred]
  rw [hred] at hok
  exact applyReviewed_sets P.id (parseReviewedUsernames comment.body) db hnd hok login hlogin
    user huser

/-- Tracking-comment fixture for the C2 witness: a manually checked box for
bob, whose review request is still unreviewed in the store. -/
def cmtC2 : IssueComment := {id := 200, fk_issue := 10, fk_user := 7, body := ("* [x] @bob\n").data}

/-- Database fixture for the C2 witness. -/
def dbC2 : DbState := {dbW with comments := [cmtC2]}

/-- Witness for C2: re-deriving from a tracking comment whose checkbox for
bob was manually checked marks bob's review request reviewed. -/
theorem claim_C2_witness :
    ∃ r', (updateProposalReviewStatus dbC2 5).1.reviewRequests.find?
        (fun r => r.fk_proposal == propW.id && r.fk_reviewer == bob.id) = some r' ∧
      r'.reviewed = true := by
  have h := claim_C2 dbC2 5 (by decide)
  exact h.2.2.2 propW cmtC2 (("bob").data) bob (by decide) (by decide) (by decide) (by decide)
    (by decide) (by decide) (by decide)

/-! ## C6: cancellation of proposals whose issue closed before FCP start -/

theorem postComment_closed (cfg : Config) (issue : Issue) (body : RStr) (ex : Option Int)
    (fid : Int) (h : issue.open_ = false) :
    postComment cfg issue body ex fid = (.error (), [.attempt body]) := by
  unfold postComment
  cases hc : cfg.postComments <;> simp [h]

theorem cancelFcp_closed (cfg : Config) (author : GitHubUser) (issue : Issue)
    (existing : FcpProposal) (db : DbState) (h : issue.open_ = false) :
    cancelFcp cfg author issue existing db =
      ({db with
          proposals := db.proposals.filter (fun p => !(p.id == existing.id)),
          reviewRequests := db.reviewRequests.filter (fun r => !(r.fk_proposal == existing.id)),
          concerns := db.concerns.filter (fun c => !(c.fk_proposal == existing.id)),
          feedbackRequests := db.feedbackRequests.filter (fun f => !(f.fk_issue == existing.fk_issue))},
        [FxItem.attempt (RfcBotComment.format issue (.fcpProposalCancelled author))]) := by
  unfold cancelFcp
  dsimp only
  rw [postComment_closed _ _ _ _ _ h]

/-- C6: one sweep over a not-yet-started proposal whose issue is closed
deletes the proposal with cascading deletion of its review requests, its
concerns and the issue's feedback requests, records the cancellation-comment
attempt (which fails, the issue being closed, and no remote write happens),
and still reports overall success — the comment failure is non-fatal to the
deletion. -/
theorem claim_C6 (cfg : Config) (now : Int) (db : DbState) (p : FcpProposal)
    (ini : GitHubUser) (issue : Issue)
    (hprops : db.proposals = [p])
    (hstart : p.fcp_start = none)
    (hini : db.users.find? (fun u => u.id == p.fk_initiator) = some ini)
    (hissue : db.issues.find? (fun i => i.id == p.fk_issue) = some issue)
    (hclosed : issue.open_ = false) :
    (evaluateNags cfg now db).1.proposals = [] ∧
    (evaluateNags cfg now db).1.reviewRequests =
      db.reviewRequests.filter (fun r => !(r.fk_proposal == p.id)) ∧
    (evaluateNags cfg now db).1.concerns =
      db.concerns.filter (fun c => !(c.fk_proposal == p.id)) ∧
    (evaluateNags cfg now db).1.feedbackRequests =
      db.feedbackRequests.filter (fun f => !(f.fk_issue == p.fk_issue)) ∧
    (evaluateNags cfg now db).2.1 =
      [FxItem.attempt (RfcBotComment.format issue (.fcpProposalCancelled ini))] ∧
    (evaluateNags cfg now db).2.2 = true := by
  have hpending : db.proposals.filter (fun q => q.fcp_start.isNone) = [p] := by
    rw [hprops]
    simp [List.filter, hstart]
  have hstep : pendingStep cfg now p db =
      ({db with
          proposals := [],
          reviewRequests := db.reviewRequests.filter (fun r => !(r.fk_proposal == p.id)),
          concerns := db.concerns.filter (fun c => !(c.fk_proposal == p.id)),
          feedbackRequests := db.feedbackRequests.filter (fun f => !(f.fk_issue == p.fk_issue))},
        [FxItem.attempt (RfcBotComment.format issue (.fcpProposalCancelled ini))], true) := by
    unfold pendingStep
    rw [hini]
    dsimp only
    rw [hissue]
    dsimp only
    rw [hclosed]
    rw [cancelFcp_closed cfg ini issue p db hclosed]
    simp only [Bool.false_eq_true, if_false]
    have hdel : db.proposals.filter (fun q => !(q.id == p.id)) = [] := by
      rw [hprops]
      simp [List.filter]
    rw [hdel]
    have hupd : updateProposalReviewStatus
        {db with
          proposals := [],
          reviewRequests := db.reviewRequests.filter (fun r => !(r.fk_proposal == p.id)),
          concerns := db.concerns.filter (fun c => !(c.fk_proposal == p.id)),
          feedbackRequests := db.feedbackRequests.filter (fun f => !(f.fk_issue == p.fk_issue))}
        p.id =
        ({db with
          proposals := [],
          reviewRequests := db.reviewRequests.filter (fun r => !(r.fk_proposal == p.id)),
          concerns := db.concerns.filter (fun c => !(c.fk_proposal == p.id)),
          feedbackRequests := db.feedbackRequests.filter (fun f => !(f.fk_issue == p.fk_issue))},
          false) := by
      unfold updateProposalReviewStatus
      rfl
    rw [hupd]
  unfold evaluateNags
  rw [hpending]
  dsimp only [pendingLoop]
  rw [hstep]
  dsimp only [pendingLoop, finishedLoop]
  simp

/-- Issue fixture for the C6 witness: the issue of `dbW`, closed. -/
def issueC6 : Issue := {issueW with open_ := false}

/-- Feedback-request fixture on the C6 issue. -/
def fbC6 : FeedbackRequest :=
  {id := 40, fk_initiator := 1, fk_requested := 2, fk_issue := 10, fk_feedback_comment := none}

/-- Database fixture for the C6 witness: pending proposal, closed issue,
dependent review/concern/feedback rows. -/
def dbC6 : DbState :=
  {dbW with issues := [issueC6], concerns := [resolvedConcern], feedbackRequests := [fbC6]}

/-- Witness for C6: the sweep deletes the proposal and its dependent rows and
still succeeds. -/
theorem claim_C6_witness :
    (evaluateNags cfgW 0 dbC6).1.proposals = [] ∧
      (evaluateNags cfgW 0 dbC6).2.2 = true := by
  have h := claim_C6 cfgW 0 dbC6 propW alice issueC6 (by decide) (by decide) (by decide)
    (by decide) (by decide)
  exact ⟨h.1, h.2.2.2.2.2⟩

/-! ## Single-pending-proposal sweep lemmas (used by C3 and C4) -/

theorem postComment_open (cfg : Config) (issue : Issue) (body : RStr) (ex : Option Int)
    (fid : Int) (hpc : cfg.postComments = true) (hopen : issue.open_ = true) :
    postComment cfg issue body ex fid =
      match ex with
      | some commentId =>
        (.ok commentId, [.attempt body, .write (.editComment issue.repository commentId body)])
      | none => (.ok fid, [.attempt body, .write (.newComment issue.repository issue.number body)]) := by
  unfold postComment
  rw [hpc, hopen]
  simp

theorem addLabelCall_eq (cfg : Config) (issue : Issue) (label : RStr) :
    addLabelCall cfg issue label =
      (cfg.labelOk,
        if cfg.labelOk then [.write (.addLabel issue.repository issue.number label)] else []) := by
  unfold addLabelCall
  cases h : cfg.labelOk <;> simp

theorem pendingStep_open (cfg : Config) (now : Int) (db : DbState) (p : FcpProposal)
    (ini : GitHubUser) (issue : Issue) (prev : IssueComment) (disp : FcpDisposition)
    (reviews : List (GitHubUser × FcpReviewRequest)) (concerns : List (GitHubUser × FcpConcern))
    (hini : db.users.find? (fun u => u.id == p.fk_initiator) = some ini)
    (hissue : db.issues.find? (fun i => i.id == p.fk_issue) = some issue)
    (hopen : issue.open_ = true)
    (hupd : updateProposalReviewStatus db p.id = (db, true))
    (hrev : listReviewRequests db p.id = .ok reviews)
    (hcon : listConcernsWithAuthors db p.id = .ok concerns)
    (hdisp : FcpDisposition.fromStr p.disposition = .ok disp)
    (hcmt : db.comments.find? (fun c => c.id == p.fk_bot_tracking_comment) = some prev)
    (hpc : cfg.postComments = true) :
    pendingStep cfg now p db =
      (let statusBody := RfcBotComment.format issue (.fcpProposed ini disp reviews concerns)
       let fxEdit : Fx :=
         if prev.body = statusBody then []
         else [.attempt statusBody,
           .write (.editComment issue.repository p.fk_bot_tracking_comment statusBody)]
       if ((reviews.filter (fun x => !x.2.reviewed)).length == 0 &&
           (concerns.filter (fun x => x.2.fk_resolved_comment.isNone)).length == 0) = true then
         let startBody :=
           RfcBotComment.format issue (.fcpAllReviewedNoConcerns ini p.fk_bot_tracking_comment cfg.labelOk)
         ({db with proposals :=
             db.proposals.map (fun q => if q.id == p.id then {p with fcp_start := some now} else q)},
          fxEdit ++
            (if cfg.labelOk then
              [FxItem.write (.addLabel issue.repository issue.number (("final-comment-period").data))]
            else []) ++
            [.attempt startBody, .write (.newComment issue.repository issue.number startBody)],
          true)
       else (db, fxEdit, true)) := by
  unfold pendingStep
  rw [hini]
  dsimp only
  rw [hissue]
  dsimp only
  rw [hopen]
  simp only [if_true]
  rw [hupd]
  dsimp only
  rw [hrev]
  dsimp only
  rw [hcon]
  dsimp only
  rw [hdisp]
  dsimp only
  rw [hcmt]
  dsimp only
  by_cases hb : prev.body = RfcBotComment.format issue (.fcpProposed ini disp reviews concerns)
  · simp only [ne_eq, hb, not_true_eq_false, if_false]
    by_cases hcount : ((reviews.filter (fun x => !x.2.reviewed)).length == 0 &&
        (concerns.filter (fun x => x.2.fk_resolved_comment.isNone)).length == 0) = true
    · simp only [hcount, if_true, hpc]
      rw [addLabelCall_eq]
      dsimp only
      rw [postComment_open cfg issue _ none cfg.freshCommentId hpc hopen]
      simp [hb]
    · simp only [hcount, Bool.false_eq_true, if_false]
      simp [hb]
  · simp only [ne_eq, hb, not_false_eq_true, if_true]
    rw [postComment_open cfg issue _ (some p.fk_bot_tracking_comment) 0 hpc hopen]
    simp only [Except.isOk, Except.toBool, Bool.not_true, Bool.false_eq_true, if_false]
    by_cases hcount : ((reviews.filter (fun x => !x.2.reviewed)).length == 0 &&
        (concerns.filter (fun x => x.2.fk_resolved_comment.isNone)).length == 0) = true
    · simp only [hcount, if_true, hpc]
      rw [addLabelCall_eq]
      dsimp only
      rw [postComment_open cfg issue _ none cfg.freshCommentId hpc hopen]
      simp [hb]
    · simp only [hcount, Bool.false_eq_true, if_false]
      simp [hb]

theorem finishedFilter_now (now : Int) (p : FcpProposal) (h : p.fcp_start = some now) :
    finishedFilter now p = false := by
  unfold finishedFilter
  rw [h]
  dsimp only
  have : decide (now ≤ now - 10) = false := by
    rw [decide_eq_false_iff_not]
    omega
  rw [this]
  simp

theorem finishedFilter_none (now : Int) (p : FcpProposal) (h : p.fcp_start = none) :
    finishedFilter now p = false := by
  unfold finishedFilter
  rw [h]
  rfl

theorem evaluateNags_single (cfg : Config) (now : Int) (db : DbState) (p : FcpProposal)
    (ini : GitHubUser) (issue : Issue) (prev : IssueComment) (disp : FcpDisposition)
    (reviews : List (GitHubUser × FcpReviewRequest)) (concerns : List (GitHubUser × FcpConcern))
    (hprops : db.proposals = [p])
    (hstart : p.fcp_start = none)
    (hini : db.users.find? (fun u => u.id == p.fk_initiator) = some ini)
    (hissue : db.issues.find? (fun i => i.id == p.fk_issue) = some issue)
    (hopen : issue.open_ = true)
    (hupd : updateProposalReviewStatus db p.id = (db, true))
    (hrev : listReviewRequests db p.id = .ok reviews)
    (hcon : listConcernsWithAuthors db p.id = .ok concerns)
    (hdisp : FcpDisposition.fromStr p.disposition = .ok disp)
    (hcmt : db.comments.find? (fun c => c.id == p.fk_bot_tracking_comment) = some prev)
    (hpc : cfg.postComments = true) :
    evaluateNags cfg now db =
      (let statusBody := RfcBotComment.format issue (.fcpProposed ini disp reviews concerns)
       let fxEdit : Fx :=
         if prev.body = statusBody then []
         else [.attempt statusBody,
           .write (.editComment issue.repository p.fk_bot_tracking_comment statusBody)]
       if ((reviews.filter (fun x => !x.2.reviewed)).length == 0 &&
           (concerns.filter (fun x => x.2.fk_resolved_comment.isNone)).length == 0) = true then
         let startBody :=
           RfcBotComment.format issue (.fcpAllReviewedNoConcerns ini p.fk_bot_tracking_comment cfg.labelOk)
         ({db with proposals := [{p with fcp_start := some now}]},
          fxEdit ++
            (if cfg.labelOk then
              [FxItem.write (.addLabel issue.repository issue.number (("final-comment-period").data))]
            else []) ++
            [.attempt startBody, .write (.newComment issue.repository issue.number startBody)],
          true)
       else (db, fxEdit, true)) := by
  have hpending : db.proposals.filter (fun q => q.fcp_start.isNone) = [p] := by
    rw [hprops]
    simp [List.filter, hstart]
  have hmap : db.proposals.map
      (fun q => if q.id == p.id then {p with fcp_start := some now} else q) =
      [{p with fcp_start := some now}] := by
    rw [hprops]
    simp
  unfold evaluateNags
  rw [hpending]
  dsimp only [pendingLoop]
  rw [pendingStep_open cfg now db p ini issue prev disp reviews concerns hini hissue hopen hupd
    hrev hcon hdisp hcmt hpc]
  dsimp only
  by_cases hcount : ((reviews.filter (fun x => !x.2.reviewed)).length == 0 &&
      (concerns.filter (fun x => x.2.fk_resolved_comment.isNone)).length == 0) = true
  · simp only [hcount, if_true]
    rw [hmap]
    have hfin : List.filter (finishedFilter now) [{p with fcp_start := some now}] = [] := by
      have h1 : finishedFilter now {p with fcp_start := some now} = false :=
        finishedFilter_now now {p with fcp_start := some now} rfl
      simp [List.filter, h1]
    rw [hfin]
    dsimp only [finishedLoop]
    simp
  · simp only [hcount, Bool.false_eq_true, if_false]
    have hfin : List.filter (finishedFilter now) db.proposals = [] := by
      rw [hprops]
      simp [List.filter, finishedFilter_none now p hstart]
    rw [hfin]
    dsimp only [finishedLoop]
    simp

/-- C3: the status-comment renderer is a pure function of the
(issue, reviewer, concern) state — determinism is by construction, identical
arguments give the one value `RfcBotComment.format issue (...)` — and a sweep
over a proposal whose stored tracking-comment body is byte-identical to the
freshly rendered text issues no remote status-comment edit at all. -/
theorem claim_C3 (cfg : Config) (now : Int) (db : DbState) (p : FcpProposal)
    (ini : GitHubUser) (issue : Issue) (prev : IssueComment) (disp : FcpDisposition)
    (reviews : List (GitHubUser × FcpReviewRequest)) (concerns : List (GitHubUser × FcpConcern))
    (hprops : db.proposals = [p])
    (hstart : p.fcp_start = none)
    (hini : db.users.find? (fun u => u.id == p.fk_initiator) = some ini)
    (hissue : db.issues.find? (fun i => i.id == p.fk_issue) = some issue)
    (hopen : issue.open_ = true)
    (hupd : updateProposalReviewStatus db p.id = (db, true))
    (hrev : listReviewRequests db p.id = .ok reviews)
    (hcon : listConcernsWithAuthors db p.id = .ok concerns)
    (hdisp : FcpDisposition.fromStr p.disposition = .ok disp)
    (hcmt : db.comments.find? (fun c => c.id == p.fk_bot_tracking_comment) = some prev)
    (hpc : cfg.postComments = true)
    (hbody : prev.body = RfcBotComment.format issue (.fcpProposed ini disp reviews concerns)) :
    ∀ repo commentId b, FxItem.write (.editComment repo commentId b) ∉ (evaluateNags cfg now db).2.1 := by
  intro repo commentId b
  rw [evaluateNags_single cfg now db p ini issue prev disp reviews concerns hprops hstart hini
    hissue hopen hupd hrev hcon hdisp hcmt hpc]
  dsimp only
  simp only [if_pos hbody]
  by_cases hcount : ((reviews.filter (fun x => !x.2.reviewed)).length == 0 &&
      (concerns.filter (fun x => x.2.fk_resolved_comment.isNone)).length == 0) = true
  · simp only [hcount, if_true]
    cases hl : cfg.labelOk <;> simp
  · simp only [hcount, Bool.false_eq_true, if_false]
    simp

set_option maxRecDepth 40000 in
/-- Witness for C3: the sweep over the fixture (stored body equals the
rendering) issues no status-comment edit. -/
theorem claim_C3_witness :
    FxItem.write (.editComment (("rust-lang/rfcs").data) 200 []) ∉ (evaluateNags cfgW 0 dbW).2.1 :=
  claim_C3 cfgW 0 dbW propW alice issueW cmtW .merge [(alice, rrAlice), (bob, rrBob)] []
    (by decide) (by decide) (by decide) (by decide) (by decide) (by decide) (by decide) (by decide)
    (by decide) (by decide) (by decide) (by decide) (("rust-lang/rfcs").data) 200 []

/-- C4: for a pending proposal (no `fcp_start`) whose re-derivation step
leaves the store unchanged, one sweep sets `fcp_start := now` exactly when
the unreviewed-review count and the unresolved-concern count are both zero;
a second sweep at any later time leaves `fcp_start` untouched; and a failed
completion-period label attach leaves `fcp_start` set and puts the warning
naming the initiator into the FCP-started notification text. -/
theorem claim_C4 (cfg : Config) (now : Int) (db : DbState) (p : FcpProposal)
    (ini : GitHubUser) (issue : Issue) (prev : IssueComment) (disp : FcpDisposition)
    (reviews : List (GitHubUser × FcpReviewRequest)) (concerns : List (GitHubUser × FcpConcern))
    (hprops : db.proposals = [p])
    (hstart : p.fcp_start = none)
    (hini : db.users.find? (fun u => u.id == p.fk_initiator) = some ini)
    (hissue : db.issues.find? (fun i => i.id == p.fk_issue) = some issue)
    (hopen : issue.open_ = true)
    (hupd : updateProposalReviewStatus db p.id = (db, true))
    (hrev : listReviewRequests db p.id = .ok reviews)
    (hcon : listConcernsWithAuthors db p.id = .ok concerns)
    (hdisp : FcpDisposition.fromStr p.disposition = .ok disp)
    (hcmt : db.comments.find? (fun c => c.id == p.fk_bot_tracking_comment) = some prev)
    (hpc : cfg.postComments = true) :
    ((evaluateNags cfg now db).1.proposals =
      if ((reviews.filter (fun x => !x.2.reviewed)).length == 0 &&
          (concerns.filter (fun x => x.2.fk_resolved_comment.isNone)).length == 0) = true
      then [{p with fcp_start := some now}] else [p]) ∧
    (((reviews.filter (fun x => !x.2.reviewed)).length == 0 &&
        (concerns.filter (fun x => x.2.fk_resolved_comment.isNone)).length == 0) = true →
      ∀ now', (evaluateNags cfg now' (evaluateNags cfg now db).1).1.proposals.map
        (fun q => q.fcp_start) = [some now]) ∧
    (cfg.labelOk = false →
      ((reviews.filter (fun x => !x.2.reviewed)).length == 0 &&
        (concerns.filter (fun x => x.2.fk_resolved_comment.isNone)).length == 0) = true →
      FxItem.write (.newComment issue.repository issue.number
          (RfcBotComment.format issue (.fcpAllReviewedNoConcerns ini p.fk_bot_tracking_comment false)))
        ∈ (evaluateNags cfg now db).2.1 ∧
      ∃ pre, RfcBotComment.format issue (.fcpAllReviewedNoConcerns ini p.fk_bot_tracking_comment false) =
        pre ++ ((("\n\n*psst @").data) ++ ini.login ++ ((", I wasn").data) ++ [apos] ++
          (("t able to add the `final-comment-period` label, please do so.*").data))) := by
  have heval := evaluateNags_single cfg now db p ini issue prev disp reviews concerns hprops
    hstart hini hissue hopen hupd hrev hcon hdisp hcmt hpc
  refine ⟨?_, ?_, ?_⟩
  · rw [heval]
    by_cases hcount : ((reviews.filter (fun x => !x.2.reviewed)).length == 0 &&
        (concerns.filter (fun x => x.2.fk_resolved_comment.isNone)).length == 0) = true
    · simp [hcount]
    · simp [hcount, hprops]
  · intro hcount now'
    rw [heval]
    dsimp only
    simp only [hcount, if_true]
    unfold evaluateNags
    have hpend2 : List.filter (fun q => q.fcp_start.isNone)
        [({p with fcp_start := some now} : FcpProposal)] = [] := by
      simp [List.filter]
    dsimp only
    rw [hpend2]
    dsimp only [pendingLoop]
    by_cases hfin : finishedFilter now' ({p with fcp_start := some now} : FcpProposal) = true
    · have hfilter : List.filter (finishedFilter now')
          [({p with fcp_start := some now} : FcpProposal)] =
          [({p with fcp_start := some now} : FcpProposal)] := by
        simp [List.filter, hfin]
      rw [hfilter]
      dsimp only [finishedLoop, finishedStep]
      rw [hissue]
      dsimp only [finishedLoop]
      simp
    · have hfin2 : finishedFilter now' ({p with fcp_start := some now} : FcpProposal) = false :=
        Bool.not_eq_true _ |>.mp hfin
      have hfilter : List.filter (finishedFilter now')
          [({p with fcp_start := some now} : FcpProposal)] = [] := by
        simp [List.filter, hfin2]
      rw [hfilter]
      dsimp only [finishedLoop]
      simp
  · intro hlabel hcount
    rw [heval]
    dsimp only
    simp only [hcount, if_true, hlabel, Bool.false_eq_true, if_false]
    constructor
    · simp
    · refine ⟨((":bell: **This is now entering its final comment period**, ").data) ++
        ((("as per the [review above](").data) ++ (addCommentUrl issue p.fk_bot_tracking_comment ++
          (((").").data) ++ ((" :bell:").data)))), ?_⟩
      unfold RfcBotComment.format
      simp [List.append_assoc]

/-- Review-request fixture: bob's review request, reviewed. -/
def rrBobR : FcpReviewRequest := {rrBob with reviewed := true}

/-- Tracking-comment fixture for the C4 witness (all boxes checked). -/
def cmtC4 : IssueComment :=
  {id := 200, fk_issue := 10, fk_user := 7,
    body := RfcBotComment.format issueW (.fcpProposed alice .merge [(alice, rrAlice), (bob, rrBobR)] [])}

/-- Database fixture for the C4 witness: every reviewer has reviewed, no
concerns. -/
def dbC4 : DbState := {dbW with comments := [cmtC4], reviewRequests := [rrAlice, rrBobR]}

set_option maxRecDepth 40000 in
/-- Witness for C4: the sweep sets `fcp_start` on the all-reviewed fixture. -/
theorem claim_C4_witness :
    (evaluateNags cfgW 5 dbC4).1.proposals = [{propW with fcp_start := some 5}] := by
  have h := (claim_C4 cfgW 5 dbC4 propW alice issueW cmtC4 .merge [(alice, rrAlice), (bob, rrBobR)]
    [] (by decide) (by decide) (by decide) (by decide) (by decide) (by decide) (by decide)
    (by decide) (by decide) (by decide) (by decide)).1
  rw [if_pos (by decide)] at h
  exact h

/-! ## C5: closing finished FCPs -/

theorem finishedStep_spec (cfg : Config) (p : FcpProposal) (db : DbState) (i : Issue)
    (hfind : db.issues.find? (fun x => x.id == p.fk_issue) = some i)
    (hpc : cfg.postComments = true) (hopen : i.open_ = true) :
    finishedStep cfg p db =
      ({db with proposals :=
          db.proposals.map (fun q => if q.id == p.id then {p with fcp_closed := true} else q)},
        [.attempt (("The final comment period is now complete.").data),
          .write (.newComment i.repository i.number
            (("The final comment period is now complete.").data))]) := by
  unfold finishedStep
  rw [hfind]
  dsimp only
  rw [postComment_open cfg i _ none cfg.freshCommentId hpc hopen]
  rfl

theorem closeMap_ids (p : FcpProposal) (l : List FcpProposal) :
    (l.map (fun q => if q.id == p.id then {p with fcp_closed := true} else q)).map
        (fun r => r.id) =
      l.map (fun r => r.id) := by
  rw [List.map_map]
  apply List.map_congr_left
  intro q hq
  by_cases h : (q.id == p.id) = true
  · simp only [Function.comp, h, if_true]
    rw [beq_iff_eq] at h
    exact h.symm
  · simp [Function.comp, h]

theorem finishedLoop_spec (cfg : Config) (now : Int) :
    ∀ (F : List FcpProposal) (db : DbState),
      cfg.postComments = true →
      (∀ q ∈ F, ∃ i, db.issues.find? (fun x => x.id == q.fk_issue) = some i ∧ i.open_ = true) →
      (∀ q ∈ F, q ∈ db.proposals) →
      (db.proposals.map (fun r => r.id)).Nodup →
      (F.map (fun r => r.id)).Nodup →
      (finishedLoop cfg F db).1.proposals =
        db.proposals.map
          (fun q => if F.any (fun r => r.id == q.id) then {q with fcp_closed := true} else q) ∧
      (finishedLoop cfg F db).1.issues = db.issues ∧
      (∀ q ∈ F, ∀ i, db.issues.find? (fun x => x.id == q.fk_issue) = some i →
        FxItem.write (.newComment i.repository i.number
            (("The final comment period is now complete.").data)) ∈ (finishedLoop cfg F db).2) := by
  intro F
  induction F with
  | nil =>
    intro db hpc hiss hsub hnd hndF
    refine ⟨?_, rfl, ?_⟩
    · simp [finishedLoop]
    · intro q hq
      cases hq
  | cons p F' ih =>
    intro db hpc hiss hsub hnd hndF
    obtain ⟨i, hi, hiopen⟩ := hiss p (by simp)
    have hstep := finishedStep_spec cfg p db i hi hpc hiopen
    have hmemp : p ∈ db.proposals := hsub p (by simp)
    simp only [List.map_cons, List.nodup_cons] at hndF
    have hdb1 : ((finishedStep cfg p db).1).proposals =
        db.proposals.map (fun q => if q.id == p.id then {p with fcp_closed := true} else q) := by
      rw [hstep]
    have hdb1issues : ((finishedStep cfg p db).1).issues = db.issues := by
      rw [hstep]
    have hnd1 : (((finishedStep cfg p db).1).proposals.map (fun r => r.id)).Nodup := by
      rw [hdb1, closeMap_ids]
      exact hnd
    have hsub1 : ∀ q ∈ F', q ∈ ((finishedStep cfg p db).1).proposals := by
      intro q hq
      rw [hdb1]
      have hqmem : q ∈ db.proposals := hsub q (by simp [hq])
      have hqid : ¬((q.id == p.id) = true) := by
        intro hh
        rw [beq_iff_eq] at hh
        exact hndF.1 (by rw [← hh]; exact List.mem_map_of_mem _ hq)
      have : (fun x => if x.id == p.id then {p with fcp_closed := true} else x) q = q := by
        simp [hqid]
      rw [← this]
      exact List.mem_map_of_mem _ hqmem
    have hiss1 : ∀ q ∈ F', ∃ j, ((finishedStep cfg p db).1).issues.find?
        (fun x => x.id == q.fk_issue) = some j ∧ j.open_ = true := by
      intro q hq
      rw [hdb1issues]
      exact hiss q (by simp [hq])
    obtain ⟨ih1, ih2, ih3⟩ := ih ((finishedStep cfg p db).1) hpc hiss1 hsub1 hnd1 hndF.2
    have hloop : finishedLoop cfg (p :: F') db =
        ((finishedLoop cfg F' ((finishedStep cfg p db).1)).1,
          (finishedStep cfg p db).2 ++ (finishedLoop cfg F' ((finishedStep cfg p db).1)).2) := by
      show (match finishedStep cfg p db with
        | (db1, fx1) =>
          match finishedLoop cfg F' db1 with
          | (db2, fx2) => (db2, fx1 ++ fx2)) = _
      rfl
    refine ⟨?_, ?_, ?_⟩
    · rw [hloop]
      dsimp only
      rw [ih1, hdb1, List.map_map]
      apply List.map_congr_left
      intro q hq
      by_cases hqp : (q.id == p.id) = true
      · obtain rfl : q = p :=
          List.inj_on_of_nodup_map hnd hq hmemp (beq_iff_eq.mp hqp)
        have hfalse : F'.any (fun r => r.id == q.id) = false := by
          cases hA : F'.any (fun r => r.id == q.id)
          · rfl
          · exfalso
            obtain ⟨r, hr, hrid⟩ := List.any_eq_true.mp hA
            rw [beq_iff_eq] at hrid
            exact hndF.1 (hrid ▸ List.mem_map_of_mem _ hr)
        simp [Function.comp, hfalse]
      · have hne : q.id ≠ p.id := fun h => hqp (beq_iff_eq.mpr h)
        have hpq : (p.id == q.id) = false := beq_eq_false_iff_ne.mpr (fun h => hne h.symm)
        simp [Function.comp, hqp, List.any_cons, hpq]
    · rw [hloop]
      dsimp only
      rw [ih2, hdb1issues]
    · intro q hq j hj
      rw [hloop]
      dsimp only
      rcases List.mem_cons.mp hq with rfl | hq'
      · obtain rfl : i = j := by
          rw [hi] at hj
          injection hj
        apply List.mem_append_left
        rw [hstep]
        simp
      · apply List.mem_append_right
        apply ih3 q hq' j
        rw [hdb1issues]
        exact hj

/-- C5: on a store where every proposal has started (the pending loop is
empty), one sweep sets `fcp_closed := true` for exactly those proposals whose
`fcp_start` is at least 10 days before `now` and whose `fcp_closed` is still
false (`finishedFilter`), posts a completion comment for each of them, and
succeeds. -/
theorem claim_C5 (cfg : Config) (now : Int) (db : DbState)
    (hpc : cfg.postComments = true)
    (hnostart : ∀ q ∈ db.proposals, q.fcp_start.isSome = true)
    (hnd : (db.proposals.map (fun r => r.id)).Nodup)
    (hiss : ∀ q ∈ db.proposals, finishedFilter now q = true →
      ∃ i, db.issues.find? (fun x => x.id == q.fk_issue) = some i ∧ i.open_ = true) :
    (evaluateNags cfg now db).1.proposals =
      db.proposals.map
        (fun q => if finishedFilter now q then {q with fcp_closed := true} else q) ∧
    (∀ q ∈ db.proposals, finishedFilter now q = true → ∀ i,
      db.issues.find? (fun x => x.id == q.fk_issue) = some i →
      FxItem.write (.newComment i.repository i.number
          (("The final comment period is now complete.").data)) ∈ (evaluateNags cfg now db).2.1) ∧
    (evaluateNags cfg now db).2.2 = true := by
  have hpendnil : db.proposals.filter (fun q => q.fcp_start.isNone) = [] := by
    rw [List.filter_eq_nil]
    intro q hq
    have := hnostart q hq
    simp [Option.isNone_iff_eq_none]
    intro hc
    rw [hc] at this
    simp at this
  have hsub : ∀ q ∈ db.proposals.filter (finishedFilter now), q ∈ db.proposals := by
    intro q hq
    exact (List.mem_filter.mp hq).1
  have hiss' : ∀ q ∈ db.proposals.filter (finishedFilter now),
      ∃ i, db.issues.find? (fun x => x.id == q.fk_issue) = some i ∧ i.open_ = true := by
    intro q hq
    obtain ⟨hmem, hf⟩ := List.mem_filter.mp hq
    exact hiss q hmem hf
  have hndF : ((db.proposals.filter (finishedFilter now)).map (fun r => r.id)).Nodup :=
    ((List.filter_sublist db.proposals).map (fun r => r.id)).nodup hnd
  obtain ⟨h1, h2, h3⟩ := finishedLoop_spec cfg now (db.proposals.filter (finishedFilter now)) db
    hpc hiss' hsub hnd hndF
  have heval : evaluateNags cfg now db =
      ((finishedLoop cfg (db.proposals.filter (finishedFilter now)) db).1,
        (finishedLoop cfg (db.proposals.filter (finishedFilter now)) db).2, true) := by
    unfold evaluateNags
    rw [hpendnil]
    dsimp only [pendingLoop]
    cases hfl : finishedLoop cfg (db.proposals.filter (finishedFilter now)) db with
    | mk db2 fx2 => simp
  refine ⟨?_, ?_, ?_⟩
  · rw [heval]
    dsimp only
    rw [h1]
    apply List.map_congr_left
    intro q hq
    by_cases hf : finishedFilter now q = true
    · have hqF : q ∈ db.proposals.filter (finishedFilter now) := List.mem_filter.mpr ⟨hq, hf⟩
      have hany : (db.proposals.filter (finishedFilter now)).any (fun r => r.id == q.id) = true :=
        List.any_eq_true.mpr ⟨q, hqF, by simp⟩
      simp [hany, hf]
    · have hany : (db.proposals.filter (finishedFilter now)).any (fun r => r.id == q.id) = false := by
        cases hA : (db.proposals.filter (finishedFilter now)).any (fun r => r.id == q.id)
        · rfl
        · exfalso
          obtain ⟨r, hr, hrid⟩ := List.any_eq_true.mp hA
          obtain ⟨hrmem, hrf⟩ := List.mem_filter.mp hr
          obtain rfl : r = q := List.inj_on_of_nodup_map hnd hrmem hq (beq_iff_eq.mp hrid)
          exact hf hrf
      simp [hany, hf]
  · intro q hq hf i hi
    rw [heval]
    dsimp only
    exact h3 q (List.mem_filter.mpr ⟨hq, hf⟩) i hi
  · rw [heval]

/-- Proposal fixture: FCP started 11 days before the witness sweep time. -/
def propOld : FcpProposal := {propW with fcp_start := some 0}

/-- Proposal fixture: FCP started 9 days before the witness sweep time, on a
second issue. -/
def propYoung : FcpProposal :=
  {propW with id := 6, fk_issue := 10, fk_bot_tracking_comment := 201, fcp_start := some 2}

/-- Database fixture for the C5 witness: one FCP 11 days old, one 9 days old,
sweep at day 11. -/
def dbC5 : DbState := {dbW with proposals := [propOld, propYoung]}

set_option maxRecDepth 40000 in
/-- Witness for C5: at `now = 11` the 11-day-old FCP closes and the 9-day-old
one does not. -/
theorem claim_C5_witness :
    (evaluateNags cfgW 11 dbC5).1.proposals =
      [{propOld with fcp_closed := true}, propYoung] := by
  have h := (claim_C5 cfgW 11 dbC5 (by decide) (by decide) (by decide) (by
    intro q hq hf
    refine ⟨issueW, ?_, by decide⟩
    have : q.fk_issue = 10 := by
      rcases List.mem_cons.mp hq with rfl | hq'
      · rfl
      · rcases List.mem_cons.mp hq' with rfl | hq''
        · rfl
        · cases hq''
    rw [this]
    decide)).1
  rw [h]
  decide

/-! ## C9: the fcp_closed implies fcp_start invariant -/

/-- Store invariant of the proposal table: a closed FCP has a start
timestamp. -/
def PropInv (l : List FcpProposal) : Prop :=
  ∀ q ∈ l, q.fcp_closed = true → q.fcp_start.isSome = true

/-- Provenance of proposal rows across one operation: every output row is an
input row, or has a start timestamp, or is not closed — each alternative
keeps `PropInv`. -/
def PropStep (inp out : List FcpProposal) : Prop :=
  ∀ q ∈ out, q ∈ inp ∨ q.fcp_start.isSome = true ∨ q.fcp_closed = false

theorem PropInv.of_step {inp out : List FcpProposal} (h : PropInv inp) (hs : PropStep inp out) :
    PropInv out := by
  intro q hq hclosed
  rcases hs q hq with hmem | hsome | hopen
  · exact h q hmem hclosed
  · exact hsome
  · rw [hclosed] at hopen
    cases hopen

theorem applyReviewed_proposals_const (pid : Int) (us : List RStr) (db : DbState) :
    (applyReviewed pid us db).1.proposals = db.proposals := by
  induction us generalizing db with
  | nil => rfl
  | cons u rest ih =>
    unfold applyReviewed
    cases h1 : db.users.find? (fun g => g.login == u) with
    | none => rfl
    | some user =>
      dsimp only
      cases h2 : db.reviewRequests.find? (fun r => r.fk_proposal == pid && r.fk_reviewer == user.id) with
      | none => rfl
      | some rr => exact ih _

theorem updateProposalReviewStatus_proposals_const (db : DbState) (pid : Int) :
    (updateProposalReviewStatus db pid).1.proposals = db.proposals := by
  unfold updateProposalReviewStatus
  cases h1 : db.proposals.find? (fun p => p.id == pid) with
  | none => rfl
  | some proposal =>
    dsimp only
    split
    · rfl
    · cases h2 : db.comments.find? (fun c => c.id == proposal.fk_bot_tracking_comment) with
      | none => rfl
      | some comment => exact applyReviewed_proposals_const _ _ db

theorem cancelFcp_proposals (cfg : Config) (author : GitHubUser) (issue : Issue)
    (existing : FcpProposal) (db : DbState) :
    (cancelFcp cfg author issue existing db).1.proposals =
      db.proposals.filter (fun p => !(p.id == existing.id)) := by
  unfold cancelFcp
  dsimp only

theorem pendingStep_propStep (cfg : Config) (now : Int) (p : FcpProposal) (db : DbState) :
    PropStep db.proposals (pendingStep cfg now p db).1.proposals := by
  unfold pendingStep
  cases h1 : db.users.find? (fun u => u.id == p.fk_initiator) with
  | none => exact fun q hq => Or.inl hq
  | some ini =>
  dsimp only
  cases h2 : db.issues.find? (fun i => i.id == p.fk_issue) with
  | none => exact fun q hq => Or.inl hq
  | some issue =>
  dsimp only
  have hbase : ∀ q ∈ ((if issue.open_ then (db, ([] : Fx)) else cancelFcp cfg ini issue p db).1).proposals,
      q ∈ db.proposals := by
    intro q hq
    by_cases ho : issue.open_ = true
    · rw [if_pos ho] at hq
      exact hq
    · rw [if_neg (by simpa using ho)] at hq
      rw [cancelFcp_proposals] at hq
      exact List.mem_of_mem_filter hq
  set db0 := (if issue.open_ then (db, ([] : Fx)) else cancelFcp cfg ini issue p db).1 with hdb0
  cases h3 : updateProposalReviewStatus db0 p.id with
  | mk db1 ok1 =>
  have hdb1 : db1.proposals = db0.proposals := by
    have := updateProposalReviewStatus_proposals_const db0 p.id
    rw [h3] at this
    exact this
  cases ok1 with
  | false => exact fun q hq => Or.inl (hbase q (by rw [← hdb1]; exact hq))
  | true =>
  dsimp only
  cases h4 : listReviewRequests db1 p.id with
  | error e => exact fun q hq => Or.inl (hbase q (by rw [← hdb1]; exact hq))
  | ok reviews =>
  dsimp only
  cases h5 : listConcernsWithAuthors db1 p.id with
  | error e => exact fun q hq => Or.inl (hbase q (by rw [← hdb1]; exact hq))
  | ok concerns =>
  dsimp only
  cases h6 : FcpDisposition.fromStr p.disposition with
  | error e => exact fun q hq => Or.inl (hbase q (by rw [← hdb1]; exact hq))
  | ok disp =>
  dsimp only
  cases h7 : db1.comments.find? (fun c => c.id == p.fk_bot_tracking_comment) with
  | none => exact fun q hq => Or.inl (hbase q (by rw [← hdb1]; exact hq))
  | some prev =>
  dsimp only
  have hmem1 : ∀ q ∈ db1.proposals, q ∈ db.proposals := by
    intro q hq
    exact hbase q (by rw [← hdb1]; exact hq)
  have hmapstep : ∀ q ∈ db1.proposals.map
      (fun x => if x.id == p.id then {p with fcp_start := some now} else x),
      q ∈ db.proposals ∨ q.fcp_start.isSome = true ∨ q.fcp_closed = false := by
    intro q hq
    obtain ⟨x, hx, hxq⟩ := List.mem_map.mp hq
    by_cases hid : (x.id == p.id) = true
    · rw [if_pos hid] at hxq
      right
      left
      rw [← hxq]
      rfl
    · rw [if_neg hid] at hxq
      exact Or.inl (hxq ▸ hmem1 x hx)
  intro q hq
  by_cases hb : prev.body = RfcBotComment.format issue (.fcpProposed ini disp reviews concerns)
  · simp only [ne_eq, hb, not_true_eq_false, if_false, Bool.not_true, Bool.false_eq_true] at hq
    by_cases hcount : ((reviews.filter (fun x => !x.2.reviewed)).length == 0 &&
        (concerns.filter (fun x => x.2.fk_resolved_comment.isNone)).length == 0) = true
    · simp only [hcount, if_true] at hq
      by_cases hpost : cfg.postComments = true
      · simp only [hpost, if_true] at hq
        exact hmapstep q hq
      · simp only [hpost, Bool.false_eq_true, if_false] at hq
        exact hmapstep q hq
    · simp only [hcount, Bool.false_eq_true, if_false] at hq
      exact Or.inl (hmem1 q hq)
  · simp only [ne_eq, hb, not_false_eq_true, if_true] at hq
    cases hpk : (postComment cfg issue
        (RfcBotComment.format issue (.fcpProposed ini disp reviews concerns))
        (some p.fk_bot_tracking_comment) 0).1.isOk with
    | false =>
      simp only [hpk, Bool.not_false, if_true] at hq
      exact Or.inl (hmem1 q hq)
    | true =>
      simp only [hpk, Bool.not_true, Bool.false_eq_true, if_false] at hq
      by_cases hcount : ((reviews.filter (fun x => !x.2.reviewed)).length == 0 &&
          (concerns.filter (fun x => x.2.fk_resolved_comment.isNone)).length == 0) = true
      · simp only [hcount, if_true] at hq
        by_cases hpost : cfg.postComments = true
        · simp only [hpost, if_true] at hq
          exact hmapstep q hq
        · simp only [hpost, Bool.false_eq_true, if_false] at hq
          exact hmapstep q hq
      · simp only [hcount, Bool.false_eq_true, if_false] at hq
        exact Or.inl (hmem1 q hq)

theorem PropStep.rfl (l : List FcpProposal) : PropStep l l := fun q hq => Or.inl hq

theorem PropStep.chain {a b c : List FcpProposal} (h1 : PropStep a b) (h2 : PropStep b c) :
    PropStep a c := by
  intro q hq
  rcases h2 q hq with hm | hs | ho
  · exact h1 q hm
  · exact Or.inr (Or.inl hs)
  · exact Or.inr (Or.inr ho)

theorem pendingLoop_propStep (cfg : Config) (now : Int) :
    ∀ (ps : List FcpProposal) (db : DbState),
      PropStep db.proposals (pendingLoop cfg now ps db).1.proposals := by
  intro ps
  induction ps with
  | nil => exact fun db => PropStep.rfl _
  | cons p rest ih =>
    intro db
    unfold pendingLoop
    cases h1 : pendingStep cfg now p db with
    | mk db1 rest1 =>
    cases rest1 with
    | mk fx1 ok1 =>
    have hstep : PropStep db.proposals db1.proposals := by
      have := pendingStep_propStep cfg now p db
      rw [h1] at this
      exact this
    cases ok1 with
    | false => exact hstep
    | true =>
      dsimp only
      cases h2 : pendingLoop cfg now rest db1 with
      | mk db2 rest2 =>
      have := ih db1
      rw [h2] at this
      exact hstep.chain this

theorem finishedFilter_isSome (now : Int) (q : FcpProposal) (h : finishedFilter now q = true) :
    q.fcp_start.isSome = true := by
  unfold finishedFilter at h
  cases hs : q.fcp_start with
  | none =>
    rw [hs] at h
    simp at h
  | some t => rfl

theorem finishedStep_propStep (cfg : Config) (p : FcpProposal) (db : DbState)
    (hp : p.fcp_start.isSome = true) :
    PropStep db.proposals (finishedStep cfg p db).1.proposals := by
  unfold finishedStep
  cases h1 : db.issues.find? (fun i => i.id == p.fk_issue) with
  | none => exact PropStep.rfl _
  | some issue =>
    dsimp only
    intro q hq
    obtain ⟨x, hx, hxq⟩ := List.mem_map.mp hq
    by_cases hid : (x.id == p.id) = true
    · rw [if_pos hid] at hxq
      right
      left
      rw [← hxq]
      exact hp
    · rw [if_neg hid] at hxq
      exact Or.inl (hxq ▸ hx)

theorem finishedLoop_propStep (cfg : Config) :
    ∀ (F : List FcpProposal) (db : DbState), (∀ p ∈ F, p.fcp_start.isSome = true) →
      PropStep db.proposals (finishedLoop cfg F db).1.proposals := by
  intro F
  induction F with
  | nil => exact fun db _ => PropStep.rfl _
  | cons p rest ih =>
    intro db hF
    unfold finishedLoop
    cases h1 : finishedStep cfg p db with
    | mk db1 fx1 =>
    have hstep : PropStep db.proposals db1.proposals := by
      have := finishedStep_propStep cfg p db (hF p (by simp))
      rw [h1] at this
      exact this
    dsimp only
    cases h2 : finishedLoop cfg rest db1 with
    | mk db2 fx2 =>
    have := ih db1 (fun r hr => hF r (by simp [hr]))
    rw [h2] at this
    exact hstep.chain this

theorem evaluateNags_propStep (cfg : Config) (now : Int) (db : DbState) :
    PropStep db.proposals (evaluateNags cfg now db).1.proposals := by
  unfold evaluateNags
  dsimp only
  cases h1 : pendingLoop cfg now (db.proposals.filter (fun p => p.fcp_start.isNone)) db with
  | mk db1 rest1 =>
  cases rest1 with
  | mk fx1 ok1 =>
  have hstep : PropStep db.proposals db1.proposals := by
    have := pendingLoop_propStep cfg now (db.proposals.filter (fun p => p.fcp_start.isNone)) db
    rw [h1] at this
    exact this
  cases ok1 with
  | false => exact hstep
  | true =>
    dsimp only
    cases h2 : finishedLoop cfg (db1.proposals.filter (finishedFilter now)) db1 with
    | mk db2 fx2 =>
    have := finishedLoop_propStep cfg (db1.proposals.filter (finishedFilter now)) db1 (by
      intro p hp
      exact finishedFilter_isSome now p (List.mem_filter.mp hp).2)
    rw [h2] at this
    exact hstep.chain this

theorem insertReviewRequests_proposals_const (pid : Int) (author : GitHubUser) :
    ∀ (members : List GitHubUser) (db : DbState),
      (insertReviewRequests pid author members db).proposals = db.proposals := by
  intro members
  induction members with
  | nil => exact fun db => rfl
  | cons m rest ih => exact fun db => ih _

theorem processCommand_shape (cfg : Config) (author : GitHubUser) (issue : Issue)
    (comment : IssueComment) (subteam : List GitHubUser) (cmd : RfcBotCommand) (db : DbState) :
    ∀ q ∈ (processCommand cfg author issue comment subteam cmd db).1.proposals,
      q ∈ db.proposals ∨ (q.fcp_start = none ∧ q.fcp_closed = false) := by
  unfold processCommand
  cases cmd with
  | fcpPropose disp =>
    dsimp only
    cases hex : db.proposals.find? (fun p => p.fk_issue == issue.id) with
    | some ex => exact fun q hq => Or.inl hq
    | none =>
      dsimp only
      cases hpost : postComment cfg issue
          (RfcBotComment.format issue (.fcpProposed author disp [] [])) none cfg.freshCommentId with
      | mk res fx0 =>
      cases res with
      | error e => exact fun q hq => Or.inl hq
      | ok cid =>
      dsimp only
      intro q hq
      split at hq
      · rw [insertReviewRequests_proposals_const] at hq
        dsimp only at hq
        rcases List.mem_append.mp hq with h | h
        · exact Or.inl h
        · simp only [List.mem_singleton] at h
          subst h
          exact Or.inr ⟨rfl, rfl⟩
      · split at hq
        · rw [insertReviewRequests_proposals_const] at hq
          dsimp only at hq
          rcases List.mem_append.mp hq with h | h
          · exact Or.inl h
          · simp only [List.mem_singleton] at h
            subst h
            exact Or.inr ⟨rfl, rfl⟩
        · rw [insertReviewRequests_proposals_const] at hq
          dsimp only at hq
          rcases List.mem_append.mp hq with h | h
          · exact Or.inl h
          · simp only [List.mem_singleton] at h
            subst h
            exact Or.inr ⟨rfl, rfl⟩
  | fcpCancel =>
    dsimp only
    cases hex : db.proposals.find? (fun p => p.fk_issue == issue.id) with
    | none => exact fun q hq => Or.inl hq
    | some ex =>
      dsimp only
      cases hc : cancelFcp cfg author issue ex db with
      | mk db1 fx1 =>
      intro q hq
      dsimp only at hq
      have hprops : db1.proposals = db.proposals.filter (fun p => !(p.id == ex.id)) := by
        have := cancelFcp_proposals cfg author issue ex db
        rw [hc] at this
        exact this
      rw [hprops] at hq
      exact Or.inl (List.mem_of_mem_filter hq)
  | reviewed =>
    dsimp only
    cases hex : db.proposals.find? (fun p => p.fk_issue == issue.id) with
    | none => exact fun q hq => Or.inl hq
    | some proposal =>
      dsimp only
      cases hrr : db.reviewRequests.find?
          (fun r => r.fk_proposal == proposal.id && r.fk_reviewer == author.id) with
      | none => exact fun q hq => Or.inl hq
      | some rr => exact fun q hq => Or.inl hq
  | newConcern n =>
    dsimp only
    cases hex : db.proposals.find? (fun p => p.fk_issue == issue.id) with
    | none => exact fun q hq => Or.inl hq
    | some proposal =>
      dsimp only
      cases hcn : db.concerns.find? (fun c => c.fk_proposal == proposal.id && c.name == n) with
      | none => exact fun q hq => Or.inl hq
      | some c0 => exact fun q hq => Or.inl hq
  | resolveConcern n =>
    dsimp only
    cases hex : db.proposals.find? (fun p => p.fk_issue == issue.id) with
    | none => exact fun q hq => Or.inl hq
    | some proposal =>
      dsimp only
      cases hcn : db.concerns.find?
          (fun c => c.fk_proposal == proposal.id && c.fk_initiator == author.id && c.name == n) with
      | none => exact fun q hq => Or.inl hq
      | some c0 => exact fun q hq => Or.inl hq
  | feedbackRequest u =>
    dsimp only
    cases hu : db.users.find? (fun g => g.login == u) with
    | none => exact fun q hq => Or.inl hq
    | some requested =>
      dsimp only
      cases hf : db.feedbackRequests.find?
          (fun f => f.fk_requested == requested.id && f.fk_issue == issue.id) with
      | none => exact fun q hq => Or.inl hq
      | some f0 => exact fun q hq => Or.inl hq

theorem resolveApplicableFeedbackRequests_proposals_const (author : GitHubUser) (issue : Issue)
    (comment : IssueComment) (db : DbState) :
    (resolveApplicableFeedbackRequests author issue comment db).proposals = db.proposals := by
  unfold resolveApplicableFeedbackRequests
  cases h : db.feedbackRequests.find? (fun f => f.fk_requested == author.id && f.fk_issue == issue.id) with
  | none => rfl
  | some r => rfl

/-- C9: proposals are created with `fcp_start = None` and `fcp_closed =
false`, and every entry point — command processing, the reconciliation sweep,
and the inbound-comment handler — preserves the invariant that a closed FCP
has a start timestamp. -/
theorem claim_C9 :
    (∀ (cfg : Config) (author : GitHubUser) (issue : Issue) (comment : IssueComment)
        (subteam : List GitHubUser) (d : FcpDisposition) (db : DbState),
      ∀ q ∈ (processCommand cfg author issue comment subteam (.fcpPropose d) db).1.proposals,
        q ∈ db.proposals ∨ (q.fcp_start = none ∧ q.fcp_closed = false)) ∧
    (∀ (cfg : Config) (author : GitHubUser) (issue : Issue) (comment : IssueComment)
        (subteam : List GitHubUser) (cmd : RfcBotCommand) (db : DbState),
      PropInv db.proposals →
      PropInv (processCommand cfg author issue comment subteam cmd db).1.proposals) ∧
    (∀ (cfg : Config) (now : Int) (db : DbState),
      PropInv db.proposals → PropInv (evaluateNags cfg now db).1.proposals) ∧
    (∀ (cfg : Config) (now : Int) (comment : IssueComment) (db : DbState) (res : UpdateResult),
      PropInv db.proposals → updateNags cfg now comment db = some res →
      PropInv res.db.proposals) := by
  have hproc : ∀ (cfg : Config) (author : GitHubUser) (issue : Issue) (comment : IssueComment)
      (subteam : List GitHubUser) (cmd : RfcBotCommand) (db : DbState),
      PropInv db.proposals →
      PropInv (processCommand cfg author issue comment subteam cmd db).1.proposals := by
    intro cfg author issue comment subteam cmd db hinv
    apply hinv.of_step
    intro q hq
    rcases processCommand_shape cfg author issue comment subteam cmd db q hq with h | ⟨h1, h2⟩
    · exact Or.inl h
    · exact Or.inr (Or.inr h2)
  have heval : ∀ (cfg : Config) (now : Int) (db : DbState),
      PropInv db.proposals → PropInv (evaluateNags cfg now db).1.proposals := by
    intro cfg now db hinv
    exact hinv.of_step (evaluateNags_propStep cfg now db)
  refine ⟨fun cfg author issue comment subteam d db =>
    processCommand_shape cfg author issue comment subteam (.fcpPropose d) db, hproc, heval, ?_⟩
  intro cfg now comment db res hinv hupd
  unfold updateNags at hupd
  cases h1 : db.issues.find? (fun i => i.id == comment.fk_issue) with
  | none =>
    rw [h1] at hupd
    injection hupd with hres
    rw [← hres]
    exact hinv
  | some issue =>
  rw [h1] at hupd
  dsimp only at hupd
  cases h2 : db.users.find? (fun u => u.id == comment.fk_user) with
  | none =>
    rw [h2] at hupd
    injection hupd with hres
    rw [← hres]
    exact hinv
  | some author =>
  rw [h2] at hupd
  dsimp only at hupd
  cases h3 : RfcBotCommand.fromStr cfg.mention comment.body with
  | panicked =>
    rw [h3] at hupd
    cases hupd
  | ok command =>
    rw [h3] at hupd
    dsimp only at hupd
    split at hupd
    · injection hupd with hres
      rw [← hres]
      exact hinv
    · cases h4 : processCommand cfg author issue comment
          (subteamMembers db issue) command db with
      | mk db1 rest1 =>
      cases rest1 with
      | mk fx1 ok1 =>
      have hinv1 : PropInv db1.proposals := by
        have := hproc cfg author issue comment (subteamMembers db issue) command db hinv
        rw [h4] at this
        exact this
      rw [h4] at hupd
      cases ok1 with
      | false =>
        dsimp only at hupd
        injection hupd with hres
        rw [← hres]
        exact hinv1
      | true =>
        dsimp only at hupd
        cases h5 : evaluateNags cfg now db1 with
        | mk db2 rest2 =>
        rw [h5] at hupd
        cases rest2 with
        | mk fx2 ok2 =>
        dsimp only at hupd
        injection hupd with hres
        rw [← hres]
        have := heval cfg now db1 hinv1
        rw [h5] at this
        exact this
  | err =>
    rw [h3] at hupd
    dsimp only at hupd
    cases h5 : evaluateNags cfg now (resolveApplicableFeedbackRequests author issue comment db) with
    | mk db2 rest2 =>
    rw [h5] at hupd
    cases rest2 with
    | mk fx2 ok2 =>
    dsimp only at hupd
    injection hupd with hres
    rw [← hres]
    have hinv1 : PropInv (resolveApplicableFeedbackRequests author issue comment db).proposals := by
      rw [resolveApplicableFeedbackRequests_proposals_const]
      exact hinv
    have := heval cfg now (resolveApplicableFeedbackRequests author issue comment db) hinv1
    rw [h5] at this
    exact this

/-- Witness for C9: the invariant holds on the fixture and is preserved by a
sweep over it. -/
theorem claim_C9_witness : PropInv (evaluateNags cfgW 0 dbW).1.proposals := by
  apply claim_C9.2.2.1 cfgW 0 dbW
  intro q hq hclosed
  simp only [dbW] at hq
  simp only [List.mem_singleton] at hq
  subst hq
  cases hclosed


/-! ## C8: silent ignore of unauthorized and unparsable comments -/

/-- Replace the feedback-request table of a store state, leaving every other
field alone.  Used to show the sweep never reads that table. -/
def setFb (db : DbState) (l : List FeedbackRequest) : DbState :=
  {db with feedbackRequests := l}

theorem setFb_issues (db : DbState) (l : List FeedbackRequest) : (setFb db l).issues = db.issues := rfl

theorem setFb_users (db : DbState) (l : List FeedbackRequest) : (setFb db l).users = db.users := rfl

theorem setFb_comments (db : DbState) (l : List FeedbackRequest) : (setFb db l).comments = db.comments := rfl

theorem setFb_proposals (db : DbState) (l : List FeedbackRequest) : (setFb db l).proposals = db.proposals := rfl

theorem setFb_reviewRequests (db : DbState) (l : List FeedbackRequest) :
    (setFb db l).reviewRequests = db.reviewRequests := rfl

theorem setFb_concerns (db : DbState) (l : List FeedbackRequest) : (setFb db l).concerns = db.concerns := rfl

/-- `resolve_applicable_feedback_requests` only rewrites the feedback-request
table. -/
theorem resolveFeedback_setFb (author : GitHubUser) (issue : Issue) (comment : IssueComment)
    (db : DbState) :
    resolveApplicableFeedbackRequests author issue comment db
      = setFb db (resolveApplicableFeedbackRequests author issue comment db).feedbackRequests := by
  unfold resolveApplicableFeedbackRequests
  cases db.feedbackRequests.find? (fun f => f.fk_requested == author.id && f.fk_issue == issue.id) with
  | none => rfl
  | some request => rfl

/-- `apply_reviewed` ignores the feedback-request table. -/
theorem applyReviewed_setFb (pid : Int) :
    ∀ (us : List RStr) (db : DbState) (l : List FeedbackRequest),
      applyReviewed pid us (setFb db l)
        = (setFb (applyReviewed pid us db).1 l, (applyReviewed pid us db).2) := by
  intro us
  induction us with
  | nil => intro db l; rfl
  | cons u rest ih =>
    intro db l
    unfold applyReviewed
    rw [setFb_users, setFb_reviewRequests]
    cases db.users.find? (fun g => g.login == u) with
    | none => rfl
    | some user =>
      dsimp only
      cases db.reviewRequests.find? (fun r => r.fk_proposal == pid && r.fk_reviewer == user.id) with
      | none => rfl
      | some rr =>
        dsimp only
        exact ih {db with reviewRequests :=
          db.reviewRequests.map (fun r => if r.id == rr.id then {rr with reviewed := true} else r)} l

/-- `update_proposal_review_status` ignores the feedback-request table. -/
theorem updateProposalReviewStatus_setFb (db : DbState) (pid : Int) (l : List FeedbackRequest) :
    updateProposalReviewStatus (setFb db l) pid
      = (setFb (updateProposalReviewStatus db pid).1 l, (updateProposalReviewStatus db pid).2) := by
  unfold updateProposalReviewStatus
  rw [setFb_proposals, setFb_comments]
  cases db.proposals.find? (fun p => p.id == pid) with
  | none => rfl
  | some proposal =>
    dsimp only
    by_cases hc : (proposal.fcp_start.isSome || proposal.fcp_closed) = true
    · rw [if_pos hc, if_pos hc]
    · rw [if_neg hc, if_neg hc]
      cases db.comments.find? (fun c => c.id == proposal.fk_bot_tracking_comment) with
      | none => rfl
      | some comment =>
        dsimp only
        exact applyReviewed_setFb proposal.id (parseReviewedUsernames comment.body) db l

/-- The reviewer pairing only reads the user table. -/
theorem pairReviewers_setFb (db : DbState) (l : List FeedbackRequest) :
    ∀ rs, pairReviewers (setFb db l) rs = pairReviewers db rs := by
  intro rs
  induction rs with
  | nil => rfl
  | cons r rest ih =>
    unfold pairReviewers
    rw [setFb_users, ih]

/-- `list_review_requests` ignores the feedback-request table. -/
theorem listReviewRequests_setFb (db : DbState) (pid : Int) (l : List FeedbackRequest) :
    listReviewRequests (setFb db l) pid = listReviewRequests db pid := by
  unfold listReviewRequests
  rw [setFb_reviewRequests, pairReviewers_setFb]

/-- The concern-author pairing only reads the user table. -/
theorem pairConcernAuthors_setFb (db : DbState) (l : List FeedbackRequest) :
    ∀ cs, pairConcernAuthors (setFb db l) cs = pairConcernAuthors db cs := by
  intro cs
  induction cs with
  | nil => rfl
  | cons c rest ih =>
    unfold pairConcernAuthors
    rw [setFb_users, ih]

/-- `list_concerns_with_authors` ignores the feedback-request table. -/
theorem listConcernsWithAuthors_setFb (db : DbState) (pid : Int) (l : List FeedbackRequest) :
    listConcernsWithAuthors (setFb db l) pid = listConcernsWithAuthors db pid := by
  unfold listConcernsWithAuthors
  rw [setFb_concerns, pairConcernAuthors_setFb]

/-- `cancel_fcp` reads no feedback request; it filters whatever table it is
given by the issue key. -/
theorem cancelFcp_setFb (cfg : Config) (author : GitHubUser) (issue : Issue) (ex : FcpProposal)
    (db : DbState) (l : List FeedbackRequest) :
    cancelFcp cfg author issue ex (setFb db l)
      = (setFb (cancelFcp cfg author issue ex db).1 (l.filter (fun f => !(f.fk_issue == ex.fk_issue))),
         (cancelFcp cfg author issue ex db).2) := rfl

/-- One pending-loop step ignores the feedback-request table: on a state with
a replaced table it produces the same store (up to some replaced table), the
same effects and the same flag. -/
theorem pendingStep_setFb (cfg : Config) (now : Int) (p : FcpProposal) (db : DbState)
    (l : List FeedbackRequest) :
    ∃ l2, pendingStep cfg now p (setFb db l)
      = (setFb (pendingStep cfg now p db).1 l2, (pendingStep cfg now p db).2) := by
  unfold pendingStep
  rw [setFb_users, setFb_issues]
  cases db.users.find? (fun u => u.id == p.fk_initiator) with
  | none => exact ⟨l, rfl⟩
  | some initiator =>
  dsimp only
  cases db.issues.find? (fun i => i.id == p.fk_issue) with
  | none => exact ⟨l, rfl⟩
  | some issue =>
  dsimp only
  by_cases hop : issue.open_ = true
  · refine ⟨l, ?_⟩
    rw [if_pos hop, if_pos hop]
    dsimp only
    rw [updateProposalReviewStatus_setFb]
    cases hq : updateProposalReviewStatus db p.id with
    | mk u b =>
    dsimp only
    cases b with
    | false => rfl
    | true =>
    dsimp only
    rw [listReviewRequests_setFb]
    cases listReviewRequests u p.id with
    | error e => rfl
    | ok reviews =>
    dsimp only
    rw [listConcernsWithAuthors_setFb]
    cases listConcernsWithAuthors u p.id with
    | error e => rfl
    | ok concerns =>
    dsimp only
    cases FcpDisposition.fromStr p.disposition with
    | error e => rfl
    | ok disposition =>
    dsimp only
    rw [setFb_comments]
    cases u.comments.find? (fun c => c.id == p.fk_bot_tracking_comment) with
    | none => rfl
    | some previousComment =>
    dsimp only
    generalize RfcBotComment.format issue (CommentType.fcpProposed initiator disposition reviews concerns) = S
    generalize (if previousComment.body ≠ S then
        ((postComment cfg issue S (some p.fk_bot_tracking_comment) 0).1.isOk,
          (postComment cfg issue S (some p.fk_bot_tracking_comment) 0).2)
      else (true, ([] : Fx))) = ed
    obtain ⟨eb, efx⟩ := ed
    cases eb with
    | false => rfl
    | true =>
      by_cases hcount : ((reviews.filter (fun x => !x.2.reviewed)).length == 0 &&
          (concerns.filter (fun x => x.2.fk_resolved_comment.isNone)).length == 0) = true
      · rw [if_pos hcount, if_pos hcount]
        by_cases hpc : cfg.postComments = true
        · rw [if_pos hpc, if_pos hpc]
          rfl
        · rw [if_neg hpc, if_neg hpc]
          rfl
      · rw [if_neg hcount, if_neg hcount]
        rfl
  · refine ⟨l.filter (fun f => !(f.fk_issue == p.fk_issue)), ?_⟩
    rw [if_neg hop, if_neg hop, cancelFcp_setFb]
    cases cancelFcp cfg initiator issue p db with
    | mk cdb cfx =>
    dsimp only
    rw [updateProposalReviewStatus_setFb]
    cases hq : updateProposalReviewStatus cdb p.id with
    | mk u b =>
    dsimp only
    cases b with
    | false => rfl
    | true =>
    dsimp only
    rw [listReviewRequests_setFb]
    cases listReviewRequests u p.id with
    | error e => rfl
    | ok reviews =>
    dsimp only
    rw [listConcernsWithAuthors_setFb]
    cases listConcernsWithAuthors u p.id with
    | error e => rfl
    | ok concerns =>
    dsimp only
    cases FcpDisposition.fromStr p.disposition with
    | error e => rfl
    | ok disposition =>
    dsimp only
    rw [setFb_comments]
    cases u.comments.find? (fun c => c.id == p.fk_bot_tracking_comment) with
    | none => rfl
    | some previousComment =>
    dsimp only
    generalize RfcBotComment.format issue (CommentType.fcpProposed initiator disposition reviews concerns) = S
    generalize (if previousComment.body ≠ S then
        ((postComment cfg issue S (some p.fk_bot_tracking_comment) 0).1.isOk,
          (postComment cfg issue S (some p.fk_bot_tracking_comment) 0).2)
      else (true, ([] : Fx))) = ed
    obtain ⟨eb, efx⟩ := ed
    cases eb with
    | false => rfl
    | true =>
      by_cases hcount : ((reviews.filter (fun x => !x.2.reviewed)).length == 0 &&
          (concerns.filter (fun x => x.2.fk_resolved_comment.isNone)).length == 0) = true
      · rw [if_pos hcount, if_pos hcount]
        by_cases hpc : cfg.postComments = true
        · rw [if_pos hpc, if_pos hpc]
          rfl
        · rw [if_neg hpc, if_neg hpc]
          rfl
      · rw [if_neg hcount, if_neg hcount]
        rfl

/-- The pending loop ignores the feedback-request table. -/
theorem pendingLoop_setFb (cfg : Config) (now : Int) :
    ∀ (ps : List FcpProposal) (db : DbState) (l : List FeedbackRequest),
      ∃ l2, pendingLoop cfg now ps (setFb db l)
        = (setFb (pendingLoop cfg now ps db).1 l2, (pendingLoop cfg now ps db).2) := by
  intro ps
  induction ps with
  | nil => intro db l; exact ⟨l, rfl⟩
  | cons p rest ih =>
    intro db l
    obtain ⟨l2, hstep⟩ := pendingStep_setFb cfg now p db l
    unfold pendingLoop
    rw [hstep]
    cases pendingStep cfg now p db with
    | mk d1 r1 =>
    obtain ⟨fx1, ok1⟩ := r1
    dsimp only
    cases ok1 with
    | false => exact ⟨l2, rfl⟩
    | true =>
      dsimp only
      obtain ⟨l3, hrec⟩ := ih d1 l2
      rw [hrec]
      cases pendingLoop cfg now rest d1 with
      | mk d2 r2 =>
      obtain ⟨fx2, ok2⟩ := r2
      exact ⟨l3, rfl⟩

/-- One finished-loop step ignores the feedback-request table, and leaves it
untouched. -/
theorem finishedStep_setFb (cfg : Config) (p : FcpProposal) (db : DbState) (l : List FeedbackRequest) :
    finishedStep cfg p (setFb db l) = (setFb (finishedStep cfg p db).1 l, (finishedStep cfg p db).2) := by
  unfold finishedStep
  rw [setFb_issues]
  cases db.issues.find? (fun i => i.id == p.fk_issue) with
  | none => rfl
  | some issue => rfl

/-- The finished loop ignores the feedback-request table. -/
theorem finishedLoop_setFb (cfg : Config) :
    ∀ (ps : List FcpProposal) (db : DbState) (l : List FeedbackRequest),
      finishedLoop cfg ps (setFb db l)
        = (setFb (finishedLoop cfg ps db).1 l, (finishedLoop cfg ps db).2) := by
  intro ps
  induction ps with
  | nil => intro db l; rfl
  | cons p rest ih =>
    intro db l
    unfold finishedLoop
    rw [finishedStep_setFb]
    cases finishedStep cfg p db with
    | mk d1 fx1 =>
    dsimp only
    rw [ih]

/-- The whole sweep ignores the feedback-request table: every non-feedback
output component, the effect trace, and the success flag are those of the
sweep on the untouched table. -/
theorem evaluateNags_setFb (cfg : Config) (now : Int) (db : DbState) (l : List FeedbackRequest) :
    ∃ l2, evaluateNags cfg now (setFb db l)
      = (setFb (evaluateNags cfg now db).1 l2, (evaluateNags cfg now db).2) := by
  unfold evaluateNags
  dsimp only
  rw [setFb_proposals]
  obtain ⟨l2, hloop⟩ := pendingLoop_setFb cfg now (db.proposals.filter (fun p => p.fcp_start.isNone)) db l
  rw [hloop]
  cases pendingLoop cfg now (db.proposals.filter (fun p => p.fcp_start.isNone)) db with
  | mk d1 r1 =>
  obtain ⟨fx1, ok1⟩ := r1
  dsimp only
  cases ok1 with
  | false => exact ⟨l2, rfl⟩
  | true =>
    dsimp only
    rw [setFb_proposals, finishedLoop_setFb]
    cases finishedLoop cfg (d1.proposals.filter (finishedFilter now)) d1 with
    | mk d2 fx2 =>
    exact ⟨l2, rfl⟩

/-- Issue comment fixture for C8: a valid command whose author is outside
every subteam. -/
def cmtC8a : IssueComment :=
  {id := 300, fk_issue := 10, fk_user := 1, body := ("@rfcbot fcp merge").data}

/-- Issue comment fixture for C8: not a command at all. -/
def cmtC8b : IssueComment :=
  {id := 301, fk_issue := 10, fk_user := 1, body := ("just a discussion comment").data}

/-- Store fixture for C8: the issue and the author exist but no team is
configured, so the resolved subteam-member set is empty. -/
def dbC8 : DbState :=
  {issues := [issueW], users := [alice], teams := [], memberships := [], comments := [],
    proposals := [], reviewRequests := [], concerns := [], feedbackRequests := [], nextId := 50}

/-- C8: a comment whose body parses as a command but whose author is not in
the issue's resolved subteam-member set is dropped before any processing:
`update_nags` succeeds with the store untouched, no effects, and no command
processed.  A comment that does not parse as a command is likewise never
processed and succeeds, and its handling mutates no proposal, review-request
or concern state and attempts no effect beyond what the background
reconciliation sweep alone produces on the same store (only the author's open
feedback request may be marked answered). -/
theorem claim_C8 (cfg : Config) (now : Int) (comment : IssueComment) (db : DbState)
    (issue : Issue) (author : GitHubUser)
    (hissue : db.issues.find? (fun i => i.id == comment.fk_issue) = some issue)
    (hauthor : db.users.find? (fun u => u.id == comment.fk_user) = some author) :
    (∀ command, RfcBotCommand.fromStr cfg.mention comment.body = .ok command →
      ((subteamMembers db issue).find? (fun u => u == author)).isNone = true →
      updateNags cfg now comment db = some {db := db, fx := [], ok := true, processed := none}) ∧
    (RfcBotCommand.fromStr cfg.mention comment.body = .err →
      ∃ res, updateNags cfg now comment db = some res ∧ res.ok = true ∧ res.processed = none ∧
        res.db.proposals = (evaluateNags cfg now db).1.proposals ∧
        res.db.reviewRequests = (evaluateNags cfg now db).1.reviewRequests ∧
        res.db.concerns = (evaluateNags cfg now db).1.concerns ∧
        res.fx = (evaluateNags cfg now db).2.1) := by
  constructor
  · intro command hcmd hsub
    unfold updateNags
    rw [hissue]
    dsimp only
    rw [hauthor]
    dsimp only
    rw [hcmd]
    dsimp only
    rw [if_pos hsub]
  · intro hparse
    unfold updateNags
    rw [hissue]
    dsimp only
    rw [hauthor]
    dsimp only
    rw [hparse]
    dsimp only
    rw [resolveFeedback_setFb]
    obtain ⟨l2, hev⟩ := evaluateNags_setFb cfg now db
      (resolveApplicableFeedbackRequests author issue comment db).feedbackRequests
    rw [hev]
    cases evaluateNags cfg now db with
    | mk d2 r2 =>
    obtain ⟨fx2, okk⟩ := r2
    dsimp only
    exact ⟨{db := setFb d2 l2, fx := fx2, ok := true, processed := none},
      rfl, rfl, rfl, rfl, rfl, rfl, rfl⟩

set_option maxRecDepth 40000 in
/-- Witness for C8: on the fixture store the authorized-but-unsubscribed
command comment is an exact no-op, and the non-command comment succeeds
unprocessed with the sweep's own output. -/
theorem claim_C8_witness :
    (updateNags cfgW 0 cmtC8a dbC8 = some {db := dbC8, fx := [], ok := true, processed := none}) ∧
    (∃ res, updateNags cfgW 0 cmtC8b dbC8 = some res ∧ res.ok = true ∧ res.processed = none ∧
      res.db.proposals = (evaluateNags cfgW 0 dbC8).1.proposals ∧
      res.db.reviewRequests = (evaluateNags cfgW 0 dbC8).1.reviewRequests ∧
      res.db.concerns = (evaluateNags cfgW 0 dbC8).1.concerns ∧
      res.fx = (evaluateNags cfgW 0 dbC8).2.1) :=
  ⟨(claim_C8 cfgW 0 cmtC8a dbC8 issueW alice (by decide) (by decide)).1
      (RfcBotCommand.fcpPropose FcpDisposition.merge) (by decide) (by decide),
    (claim_C8 cfgW 0 cmtC8b dbC8 issueW alice (by decide) (by decide)).2 (by decide)⟩
